import Mathlib

/-!
# NGINX ingress configurator: a shallow embedding of `nginx/configurator.go`

The Go functions of `configurator.go` are translated one by one into Lean
functions that keep their names.  The conventions of the translation:

* A Go `map[string]V` is a `GoMap V`, an association list.  Reading a key
  returns the first binding; writing a key replaces the binding in place when
  there is one and appends a new binding otherwise, so a map built from
  `make(map...)` by writes never holds a key twice.  Go leaves the iteration
  order of a map unspecified; `upstreamMapToSlice` walks the bindings in the
  order of their first write, and the theorems about its result speak of
  membership, of length and of the result up to a permutation only.
* Pointers that the code dereferences without a nil test (`*endps`,
  `secret.Data`) are values; pointers it tests against nil
  (`Spec.Backend`, `rule.HTTP`) are `Option`s.
* Go `int` is an `Int` (64 bits), `int32` is an `Int` in the 32 bit range;
  the conversion `int32(x)` is `toInt32`.
* A `[]byte` secret field is carried as the `String` that `string(b)` makes
  of it.
* `glog` warnings are diagnostics without influence on the result; they are
  left out.
* The collaborator `*NginxController` is a state `σ` together with the
  functions of `NginxController σ`; every call passes the state on.
* The baseline `cnf.config` is passed by value where only its content matters.
  Where it matters which variable an assignment writes to, the functions that
  end in `Ref` keep the variables of type `Config` in a `ConfigHeap` and the
  baseline behind its address.
-/

namespace Nginx

/-! ## Go maps -/

/-- A Go `map[string]V`: bindings in the order of their first write. -/
abbrev GoMap (V : Type) := List (String × V)

namespace GoMap

/-- The two-valued read `v, ok := m[k]`: `none` stands for `ok == false`. -/
def get? {V : Type} : GoMap V → String → Option V
  | [], _ => none
  | (k', v) :: rest, k => if k' = k then some v else get? rest k

/-- The write `m[k] = v`. -/
def set {V : Type} : GoMap V → String → V → GoMap V
  | [], k, v => [(k, v)]
  | (k', v') :: rest, k, v =>
    if k' = k then (k, v) :: rest else (k', v') :: set rest k v

/-- The keys of the map. -/
def keys {V : Type} (m : GoMap V) : List String := m.map Prod.fst

/-- The values of the map, as a `range` loop meets them. -/
def values {V : Type} (m : GoMap V) : List V := m.map Prod.snd

end GoMap

/-! ## The Kubernetes API types the configurator reads -/

/-- The library type `intstr.IntOrString`: an `int32` or a string. -/
inductive IntOrString where
  | int (IntVal : Int)
  | str (StrVal : String)
  deriving DecidableEq, Repr

/-- The decimal digits of a string read as a number, most significant first. -/
def digitsValue (ds : List Char) : Nat :=
  ds.foldl (fun acc c => 10 * acc + (c.toNat - '0'.toNat)) 0

/-- The library function `strconv.Atoi` with its error dropped, as `IntValue`
uses it: an optional sign followed by one or more decimal digits; `0` on a
syntax error, the nearest 64 bit bound on a range error. -/
def Atoi (s : String) : Int :=
  let cs := s.toList
  let neg := cs.head? = some '-'
  let ds := if cs.head? = some '-' ∨ cs.head? = some '+' then cs.tail else cs
  if ds = [] ∨ ¬ ds.all Char.isDigit then 0
  else
    let n := digitsValue ds
    if neg then (if n > 2 ^ 63 then -(2 ^ 63 : Int) else -(n : Int))
    else (if n ≥ 2 ^ 63 then (2 ^ 63 : Int) - 1 else (n : Int))

/-- The library method `IntOrString.IntValue`. -/
def IntOrString.IntValue : IntOrString → Int
  | .int v => v
  | .str s => Atoi s

/-- `extensions.IngressBackend`. -/
structure IngressBackend where
  ServiceName : String
  ServicePort : IntOrString
  deriving DecidableEq, Repr

/-- `extensions.HTTPIngressPath`. -/
structure HTTPIngressPath where
  Path : String
  Backend : IngressBackend
  deriving DecidableEq, Repr

/-- `extensions.HTTPIngressRuleValue`. -/
structure HTTPIngressRuleValue where
  Paths : List HTTPIngressPath
  deriving DecidableEq, Repr

/-- `extensions.IngressRule`; `HTTP` is the pointer `IngressRuleValue.HTTP`. -/
structure IngressRule where
  Host : String
  HTTP : Option HTTPIngressRuleValue
  deriving DecidableEq, Repr

/-- `extensions.IngressTLS`. -/
structure IngressTLS where
  Hosts : List String
  SecretName : String
  deriving DecidableEq, Repr

/-- `extensions.IngressSpec`. -/
structure IngressSpec where
  Backend : Option IngressBackend
  TLS : List IngressTLS
  Rules : List IngressRule
  deriving DecidableEq, Repr

/-- `extensions.Ingress`, with the fields of its metadata that are read. -/
structure Ingress where
  Namespace : String
  Name : String
  Annotations : GoMap String
  Spec : IngressSpec
  deriving DecidableEq, Repr

/-- `api.Secret`. -/
structure Secret where
  Data : GoMap String
  deriving DecidableEq, Repr

/-- `api.EndpointAddress`. -/
structure EndpointAddress where
  IP : String
  deriving DecidableEq, Repr

/-- `api.EndpointPort`; `Port` is an `int32`. -/
structure EndpointPort where
  Port : Int
  deriving DecidableEq, Repr

/-- `api.EndpointSubset`. -/
structure EndpointSubset where
  Addresses : List EndpointAddress
  Ports : List EndpointPort
  deriving DecidableEq, Repr

/-- `api.Endpoints`. -/
structure Endpoints where
  Subsets : List EndpointSubset
  deriving DecidableEq, Repr

/-- The constant `api.TLSCertKey`. -/
def TLSCertKey : String := "tls.crt"

/-- The constant `api.TLSPrivateKeyKey`. -/
def TLSPrivateKeyKey : String := "tls.key"

/-! ## The types of package `nginx` the configurator builds -/

/-- The snapshot `IngressEx`: a resource with its secrets and endpoints. -/
structure IngressEx where
  Ingress : Ingress
  Secrets : GoMap Secret
  Endpoints : GoMap Endpoints
  deriving DecidableEq, Repr

/-- `Config`, the baseline settings, with the five fields the code reads. -/
structure Config where
  ProxyConnectTimeout : String
  ProxyReadTimeout : String
  ClientMaxBodySize : String
  MainServerNamesHashBucketSize : String
  MainServerNamesHashMaxSize : String
  deriving DecidableEq, Repr

/-- `NginxMainConfig`. -/
structure NginxMainConfig where
  ServerNamesHashBucketSize : String
  ServerNamesHashMaxSize : String
  deriving DecidableEq, Repr

/-- `UpstreamServer`. -/
structure UpstreamServer where
  Address : String
  Port : String
  deriving DecidableEq, Repr

/-- `Upstream`. -/
structure Upstream where
  Name : String
  UpstreamServers : List UpstreamServer
  deriving DecidableEq, Repr

/-- The zero value of `Upstream`, which reading an absent map key yields. -/
def Upstream.zero : Upstream := { Name := "", UpstreamServers := [] }

/-- `Location`. -/
structure Location where
  Path : String
  Upstream : Upstream
  ProxyConnectTimeout : String
  ProxyReadTimeout : String
  ClientMaxBodySize : String
  deriving DecidableEq, Repr

/-- `Server`. -/
structure Server where
  Name : String
  Locations : List Location
  SSL : Bool
  SSLCertificate : String
  SSLCertificateKey : String
  deriving DecidableEq, Repr

/-- `IngressNginxConfig`. -/
structure IngressNginxConfig where
  Upstreams : List Upstream
  Servers : List Server
  deriving DecidableEq, Repr

/-- The collaborator `*NginxController`, over a state `σ`: the five methods the
configurator calls. -/
structure NginxController (σ : Type) where
  AddOrUpdateCertAndKey : σ → String → String → String → String × σ
  AddOrUpdateIngress : σ → String → IngressNginxConfig → σ
  DeleteIngress : σ → String → σ
  Reload : σ → σ
  UpdateMainConfigFile : σ → NginxMainConfig → σ

/-- `Configurator`: the collaborator's state and the baseline.  The mutex is
not part of the sequential model. -/
structure Configurator (σ : Type) where
  nginx : σ
  config : Config

/-- Modelled from the spec: NewUpstreamWithDefaultServer, declared outside
`configurator.go`.  The group carries the given name and a single placeholder
server, here the parameter `placeholder`. -/
def NewUpstreamWithDefaultServer (placeholder : UpstreamServer) (name : String) : Upstream :=
  { Name := name, UpstreamServers := [placeholder] }

/-! ## `configurator.go` -/

/-- The constant `emptyHost`. -/
def emptyHost : String := ""

/-- The conversion `int32(x)` of a Go `int`. -/
def toInt32 (x : Int) : Int := (x + 2 ^ 31) % 2 ^ 32 - 2 ^ 31

/-- `pathOrDefault`. -/
def pathOrDefault (path : String) : String :=
  if path = "" then "/" else path

/-- `getNameForUpstream`: `fmt.Sprintf("%v-%v-%v-%v", ...)`. -/
def getNameForUpstream (ing : Ingress) (host : String) (service : String) : String :=
  ing.Namespace ++ "-" ++ ing.Name ++ "-" ++ host ++ "-" ++ service

/-- The inner loop of `endpointsToUpstreamServers` over the ports of one
subset: at the first port equal to `int32(servicePort)` it emits a server per
address and breaks. -/
def subsetUpstreamServers (subset : EndpointSubset) (servicePort : Int) :
    List EndpointPort → List UpstreamServer
  | [] => []
  | port :: rest =>
    if port.Port = toInt32 servicePort then
      subset.Addresses.foldl
        (fun acc address => acc ++ [{ Address := address.IP, Port := toString servicePort }]) []
    else subsetUpstreamServers subset servicePort rest

/-- `endpointsToUpstreamServers`. -/
def endpointsToUpstreamServers (endps : Endpoints) (servicePort : Int) : List UpstreamServer :=
  endps.Subsets.foldl
    (fun upsServers subset => upsServers ++ subsetUpstreamServers subset servicePort subset.Ports) []

/-- `createUpstream`.  The receiver and the parameter `namespace`, which the
body does not read, are left out. -/
def createUpstream (placeholder : UpstreamServer) (ingEx : IngressEx) (name : String)
    (backend : IngressBackend) : Upstream :=
  let ups := NewUpstreamWithDefaultServer placeholder name
  match ingEx.Endpoints.get? backend.ServiceName with
  | some endps =>
    let upsServers := endpointsToUpstreamServers endps backend.ServicePort.IntValue
    if upsServers.length > 0 then { ups with UpstreamServers := upsServers } else ups
  | none => ups

/-- `createLocation`. -/
def createLocation (path : String) (upstream : Upstream) (cfg : Config) : Location :=
  { Path := path
    Upstream := upstream
    ProxyConnectTimeout := cfg.ProxyConnectTimeout
    ProxyReadTimeout := cfg.ProxyReadTimeout
    ClientMaxBodySize := cfg.ClientMaxBodySize }

/-- `createConfig`: a copy of the baseline with the three annotations laid
over it. -/
def createConfig (config : Config) (ingEx : IngressEx) : Config :=
  let ingCfg := config
  let ingCfg :=
    match ingEx.Ingress.Annotations.get? "nginx.org/proxy-connect-timeout" with
    | some proxyConnectTimeout => { ingCfg with ProxyConnectTimeout := proxyConnectTimeout }
    | none => ingCfg
  let ingCfg :=
    match ingEx.Ingress.Annotations.get? "nginx.org/proxy-read-timeout" with
    | some proxyReadTimeout => { ingCfg with ProxyReadTimeout := proxyReadTimeout }
    | none => ingCfg
  let ingCfg :=
    match ingEx.Ingress.Annotations.get? "nginx.org/client-max-body-size" with
    | some clientMaxBodySize => { ingCfg with ClientMaxBodySize := clientMaxBodySize }
    | none => ingCfg
  ingCfg

/-- `upstreamMapToSlice`. -/
def upstreamMapToSlice (upstreams : GoMap Upstream) : List Upstream :=
  upstreams.foldl (fun result kv => result ++ [kv.2]) []

/-- The variables the loop over the paths of one rule updates. -/
structure PathLoop where
  upstreams : GoMap Upstream
  locations : List Location
  rootLocation : Bool

/-- One turn of the loop over `rule.HTTP.Paths` in `generateNginxCfg`. -/
def pathStep (placeholder : UpstreamServer) (ingEx : IngressEx) (ingCfg : Config)
    (host : String) (st : PathLoop) (path : HTTPIngressPath) : PathLoop :=
  let upsName := getNameForUpstream ingEx.Ingress host path.Backend.ServiceName
  let upstreams :=
    match st.upstreams.get? upsName with
    | some _ => st.upstreams
    | none => st.upstreams.set upsName (createUpstream placeholder ingEx upsName path.Backend)
  let loc := createLocation (pathOrDefault path.Path)
    ((upstreams.get? upsName).getD Upstream.zero) ingCfg
  { upstreams := upstreams
    locations := st.locations ++ [loc]
    rootLocation := if loc.Path = "/" then true else st.rootLocation }

/-- The variables the loop over the rules updates. -/
structure RuleLoop where
  upstreams : GoMap Upstream
  servers : List Server

/-- A `Server` literal with the certificate of `pems` for its name, if any. -/
def serverWithCert (serverName : String) (pems : GoMap String) : Server :=
  let server : Server :=
    { Name := serverName, Locations := [], SSL := false, SSLCertificate := "",
      SSLCertificateKey := "" }
  match pems.get? serverName with
  | some pemFile =>
    { server with SSL := true, SSLCertificate := pemFile, SSLCertificateKey := pemFile }
  | none => server

/-- One turn of the loop over `Spec.Rules` in `generateNginxCfg`. -/
def ruleStep (placeholder : UpstreamServer) (ingEx : IngressEx) (pems : GoMap String)
    (ingCfg : Config) (st : RuleLoop) (rule : IngressRule) : RuleLoop :=
  match rule.HTTP with
  | none => st
  | some http =>
    let serverName := rule.Host
    let server := serverWithCert serverName pems
    let inner := http.Paths.foldl (pathStep placeholder ingEx ingCfg rule.Host)
      { upstreams := st.upstreams, locations := [], rootLocation := false }
    let locations :=
      match ingEx.Ingress.Spec.Backend with
      | some backend =>
        if inner.rootLocation = false then
          let upsName := getNameForUpstream ingEx.Ingress emptyHost backend.ServiceName
          inner.locations ++
            [createLocation (pathOrDefault "/")
              ((inner.upstreams.get? upsName).getD Upstream.zero) ingCfg]
        else inner.locations
      | none => inner.locations
    { upstreams := inner.upstreams
      servers := st.servers ++ [{ server with Locations := locations }] }

/-- The first lines of `generateNginxCfg`: the fresh map `upstreams`, holding
the group of the default backend when one is declared. -/
def initialUpstreams (placeholder : UpstreamServer) (ingEx : IngressEx) : GoMap Upstream :=
  let upstreams : GoMap Upstream := []
  match ingEx.Ingress.Spec.Backend with
  | some backend =>
    let name := getNameForUpstream ingEx.Ingress emptyHost backend.ServiceName
    upstreams.set name (createUpstream placeholder ingEx name backend)
  | none => upstreams

/-- The loop over `Spec.Rules` of `generateNginxCfg`, run from the initial map
and no server. -/
def rulesLoop (config : Config) (placeholder : UpstreamServer) (ingEx : IngressEx)
    (pems : GoMap String) : RuleLoop :=
  ingEx.Ingress.Spec.Rules.foldl
    (ruleStep placeholder ingEx pems (createConfig config ingEx))
    { upstreams := initialUpstreams placeholder ingEx, servers := [] }

/-- `generateNginxCfg`. -/
def generateNginxCfg (config : Config) (placeholder : UpstreamServer) (ingEx : IngressEx)
    (pems : GoMap String) : IngressNginxConfig :=
  let ingCfg := createConfig config ingEx
  let st := rulesLoop config placeholder ingEx pems
  let servers :=
    match ingEx.Ingress.Spec.Backend with
    | some backend =>
      if ingEx.Ingress.Spec.Rules.length = 0 then
        let server := serverWithCert emptyHost pems
        let upsName := getNameForUpstream ingEx.Ingress emptyHost backend.ServiceName
        let loc := createLocation (pathOrDefault "/")
          ((st.upstreams.get? upsName).getD Upstream.zero) ingCfg
        st.servers ++ [{ server with Locations := [loc] }]
      else st.servers
    | none => st.servers
  { Upstreams := upstreamMapToSlice st.upstreams, Servers := servers }

/-- The variables the loop over the TLS declarations updates: the map and the
collaborator's state. -/
structure CertLoop (σ : Type) where
  pems : GoMap String
  nginx : σ

/-- One turn of the loop over `Spec.TLS` in `updateCertificates`. -/
def tlsStep {σ : Type} (ctl : NginxController σ) (ingEx : IngressEx)
    (st : CertLoop σ) (tls : IngressTLS) : CertLoop σ :=
  let secretName := tls.SecretName
  match ingEx.Secrets.get? secretName with
  | none => st
  | some secret =>
    match secret.Data.get? TLSCertKey with
    | none => st
    | some cert =>
      match secret.Data.get? TLSPrivateKeyKey with
      | none => st
      | some key =>
        let r := ctl.AddOrUpdateCertAndKey st.nginx secretName cert key
        let pemFileName := r.1
        let pems := tls.Hosts.foldl (fun pems host => pems.set host pemFileName) st.pems
        let pems := if tls.Hosts.length = 0 then pems.set emptyHost pemFileName else pems
        { pems := pems, nginx := r.2 }

/-- `updateCertificates`: the certificate map and the collaborator's state
after the registrations. -/
def updateCertificates {σ : Type} (ctl : NginxController σ) (nginx : σ) (ingEx : IngressEx) :
    CertLoop σ :=
  ingEx.Ingress.Spec.TLS.foldl (tlsStep ctl ingEx) { pems := [], nginx := nginx }

/-- `AddOrUpdateIngress`. -/
def AddOrUpdateIngress {σ : Type} (ctl : NginxController σ) (placeholder : UpstreamServer)
    (cnf : Configurator σ) (name : String) (ingEx : IngressEx) : Configurator σ :=
  let r := updateCertificates ctl cnf.nginx ingEx
  let nginxCfg := generateNginxCfg cnf.config placeholder ingEx r.pems
  let nginx := ctl.AddOrUpdateIngress r.nginx name nginxCfg
  { cnf with nginx := ctl.Reload nginx }

/-- `DeleteIngress`. -/
def DeleteIngress {σ : Type} (ctl : NginxController σ) (cnf : Configurator σ)
    (name : String) : Configurator σ :=
  { cnf with nginx := ctl.Reload (ctl.DeleteIngress cnf.nginx name) }

/-- `UpdateEndpoints`. -/
def UpdateEndpoints {σ : Type} (ctl : NginxController σ) (placeholder : UpstreamServer)
    (cnf : Configurator σ) (name : String) (ingEx : IngressEx) : Configurator σ :=
  AddOrUpdateIngress ctl placeholder cnf name ingEx

/-- `UpdateConfig`. -/
def UpdateConfig {σ : Type} (ctl : NginxController σ) (cnf : Configurator σ)
    (config : Config) : Configurator σ :=
  let mainCfg : NginxMainConfig :=
    { ServerNamesHashBucketSize := config.MainServerNamesHashBucketSize
      ServerNamesHashMaxSize := config.MainServerNamesHashMaxSize }
  { nginx := ctl.UpdateMainConfigFile cnf.nginx mainCfg, config := config }

/-! ## The baseline behind its pointer -/

/-- The variables of type `Config` by address.  A pointer `*Config` is an
address, the variable it points to is the cell at that address, and an address
without a cell is a pointer that cannot be dereferenced. -/
abbrev ConfigHeap := List Config

namespace ConfigHeap

/-- The read `*p`. -/
def read (heap : ConfigHeap) (p : Nat) : Option Config := heap[p]?

/-- A new variable with the given value: its address and the heap with it. -/
def alloc (heap : ConfigHeap) (c : Config) : Nat × ConfigHeap := (heap.length, heap ++ [c])

/-- An assignment to a field of the variable at `p`. -/
def update (heap : ConfigHeap) (p : Nat) (f : Config → Config) : ConfigHeap :=
  match heap[p]? with
  | some c => heap.set p (f c)
  | none => heap

end ConfigHeap

/-- `Configurator` with its field `config *Config` as the pointer it is. -/
structure ConfiguratorRef (σ : Type) where
  nginx : σ
  config : Nat

/-- `createConfig` with the variables of type `Config` in memory: `ingCfg :=
*cnf.config` declares the variable `ingCfg` and copies the baseline into it, the
three assignments write to fields of `ingCfg`, and the value of `ingCfg` is
returned.  The result is `none` when `cnf.config` cannot be dereferenced. -/
def createConfigRef (heap : ConfigHeap) (config : Nat) (ingEx : IngressEx) :
    Option (Config × ConfigHeap) :=
  match heap.read config with
  | none => none
  | some baseline =>
    let ingCfg := (heap.alloc baseline).1
    let heap := (heap.alloc baseline).2
    let heap :=
      match ingEx.Ingress.Annotations.get? "nginx.org/proxy-connect-timeout" with
      | some proxyConnectTimeout =>
        heap.update ingCfg (fun c => { c with ProxyConnectTimeout := proxyConnectTimeout })
      | none => heap
    let heap :=
      match ingEx.Ingress.Annotations.get? "nginx.org/proxy-read-timeout" with
      | some proxyReadTimeout =>
        heap.update ingCfg (fun c => { c with ProxyReadTimeout := proxyReadTimeout })
      | none => heap
    let heap :=
      match ingEx.Ingress.Annotations.get? "nginx.org/client-max-body-size" with
      | some clientMaxBodySize =>
        heap.update ingCfg (fun c => { c with ClientMaxBodySize := clientMaxBodySize })
      | none => heap
    match heap.read ingCfg with
    | none => none
    | some result => some (result, heap)

/-- The body of `generateNginxCfg` after its first line, for the overlay
`ingCfg` that line has produced. -/
def generateNginxCfgFrom (ingCfg : Config) (placeholder : UpstreamServer) (ingEx : IngressEx)
    (pems : GoMap String) : IngressNginxConfig :=
  let st := ingEx.Ingress.Spec.Rules.foldl (ruleStep placeholder ingEx pems ingCfg)
    { upstreams := initialUpstreams placeholder ingEx, servers := [] }
  let servers :=
    match ingEx.Ingress.Spec.Backend with
    | some backend =>
      if ingEx.Ingress.Spec.Rules.length = 0 then
        let server := serverWithCert emptyHost pems
        let upsName := getNameForUpstream ingEx.Ingress emptyHost backend.ServiceName
        let loc := createLocation (pathOrDefault "/")
          ((st.upstreams.get? upsName).getD Upstream.zero) ingCfg
        st.servers ++ [{ server with Locations := [loc] }]
      else st.servers
    | none => st.servers
  { Upstreams := upstreamMapToSlice st.upstreams, Servers := servers }

/-- `generateNginxCfg` with the variables of type `Config` in memory: the
overlay comes from `createConfigRef`, and the rest of the body reads it. -/
def generateNginxCfgRef (heap : ConfigHeap) (config : Nat) (placeholder : UpstreamServer)
    (ingEx : IngressEx) (pems : GoMap String) : Option (IngressNginxConfig × ConfigHeap) :=
  match createConfigRef heap config ingEx with
  | none => none
  | some r => some (generateNginxCfgFrom r.1 placeholder ingEx pems, r.2)

/-- `AddOrUpdateIngress` with the variables of type `Config` in memory. -/
def AddOrUpdateIngressRef {σ : Type} (ctl : NginxController σ) (placeholder : UpstreamServer)
    (heap : ConfigHeap) (cnf : ConfiguratorRef σ) (name : String) (ingEx : IngressEx) :
    Option (ConfiguratorRef σ × ConfigHeap) :=
  let r := updateCertificates ctl cnf.nginx ingEx
  match generateNginxCfgRef heap cnf.config placeholder ingEx r.pems with
  | none => none
  | some g =>
    let nginx := ctl.AddOrUpdateIngress r.nginx name g.1
    some ({ cnf with nginx := ctl.Reload nginx }, g.2)

/-! ## Vocabulary of the statements -/

/-- The host rules that have a path list, as pairs of host and paths, in
declaration order. -/
def rulesWithPaths (rules : List IngressRule) : List (String × List HTTPIngressPath) :=
  rules.filterMap (fun rule => rule.HTTP.map (fun http => (rule.Host, http.Paths)))

/-- Whether some path of the list is `/` once an empty path is defaulted. -/
def hasRootPath (paths : List HTTPIngressPath) : Bool :=
  paths.any (fun path => decide (pathOrDefault path.Path = "/"))

/-- The `(host, service)` pairs a resource references: the default backend
under the empty host, then every path of every rule with a path list. -/
def referencedBackends (ing : Ingress) : List (String × String) :=
  (match ing.Spec.Backend with
    | some backend => [(emptyHost, backend.ServiceName)]
    | none => []) ++
  (rulesWithPaths ing.Spec.Rules).flatMap
    (fun r => r.2.map (fun path => (r.1, path.Backend.ServiceName)))

/-- The group `generateNginxCfg` builds for the default backend. -/
def defaultUpstream (placeholder : UpstreamServer) (ingEx : IngressEx)
    (backend : IngressBackend) : Upstream :=
  createUpstream placeholder ingEx
    (getNameForUpstream ingEx.Ingress emptyHost backend.ServiceName) backend

/-- The number of fallback Locations `generateNginxCfg` synthesizes: one for
every rule with a path list and no root path, and one for the host-less server
of a resource without rules, all only under a default backend. -/
def synthesizedCount (ing : Ingress) : Nat :=
  match ing.Spec.Backend with
  | some _ =>
    ((rulesWithPaths ing.Spec.Rules).filter (fun r => !hasRootPath r.2)).length +
      (if ing.Spec.Rules.length = 0 then 1 else 0)
  | none => 0

/-- The certificate and the key of the secret of a TLS declaration, when the
secret is in the snapshot and holds both fields: the three guards of the loop
of `updateCertificates`. -/
def certAndKey (ingEx : IngressEx) (tls : IngressTLS) : Option (String × String) :=
  match ingEx.Secrets.get? tls.SecretName with
  | none => none
  | some secret =>
    match secret.Data.get? TLSCertKey with
    | none => none
    | some cert =>
      match secret.Data.get? TLSPrivateKeyKey with
      | none => none
      | some key => some (cert, key)

/-- The map `m'` holds every binding of `m`. -/
def GoMap.Extends {V : Type} (m m' : GoMap V) : Prop :=
  ∀ k v, m.get? k = some v → m'.get? k = some v

/-- Every group of the map is bound to its own name. -/
def NamedByKey (m : GoMap Upstream) : Prop :=
  ∀ k u, m.get? k = some u → u.Name = k

/-- The Locations of the server of a rule with host `host` and paths `paths`,
read off a map `upstreams`: one per path, then the fallback when a default
backend is declared and no path is the root. -/
def locationsFrom (upstreams : GoMap Upstream) (ingEx : IngressEx) (ingCfg : Config)
    (host : String) (paths : List HTTPIngressPath) : List Location :=
  paths.map (fun path =>
    createLocation (pathOrDefault path.Path)
      ((upstreams.get? (getNameForUpstream ingEx.Ingress host path.Backend.ServiceName)).getD
        Upstream.zero) ingCfg) ++
  (match ingEx.Ingress.Spec.Backend with
    | some backend =>
      if hasRootPath paths then []
      else [createLocation "/"
        ((upstreams.get? (getNameForUpstream ingEx.Ingress emptyHost backend.ServiceName)).getD
          Upstream.zero) ingCfg]
    | none => [])

/-- The host-less server `generateNginxCfg` builds for a resource without
rules: a single root Location bound to the group of the default backend. -/
def hostlessServer (placeholder : UpstreamServer) (ingEx : IngressEx) (pems : GoMap String)
    (ingCfg : Config) (backend : IngressBackend) : Server :=
  { serverWithCert emptyHost pems with
    Locations := [createLocation "/" (defaultUpstream placeholder ingEx backend) ingCfg] }

/-- The server of a rule with a path list, read off a map `upstreams`. -/
def serverFrom (upstreams : GoMap Upstream) (ingEx : IngressEx) (pems : GoMap String)
    (ingCfg : Config) (r : String × List HTTPIngressPath) : Server :=
  { serverWithCert r.1 pems with Locations := locationsFrom upstreams ingEx ingCfg r.1 r.2 }

/-- The snapshot with the TLS declarations of its resource replaced. -/
def withTLS (ingEx : IngressEx) (tls : List IngressTLS) : IngressEx :=
  { ingEx with Ingress := { ingEx.Ingress with Spec := { ingEx.Ingress.Spec with TLS := tls } } }

/-- The snapshot with the host rules of its resource replaced. -/
def withRules (ingEx : IngressEx) (rules : List IngressRule) : IngressEx :=
  { ingEx with
    Ingress := { ingEx.Ingress with Spec := { ingEx.Ingress.Spec with Rules := rules } } }

/-- The snapshot with the annotations of its resource replaced. -/
def withAnnotations (ingEx : IngressEx) (annotations : GoMap String) : IngressEx :=
  { ingEx with Ingress := { ingEx.Ingress with Annotations := annotations } }

/-- The path with the target port of its backend replaced. -/
def withPort (path : HTTPIngressPath) (port : IntOrString) : HTTPIngressPath :=
  { path with Backend := { path.Backend with ServicePort := port } }

/-- The backend references of a resource in the order `generateNginxCfg` meets
them, each with the host it is met under: the default backend under the empty
host, then the paths of the rules with a path list in declaration order. -/
def references (backend : Option IngressBackend) (rules : List IngressRule) :
    List (String × IngressBackend) :=
  (match backend with
    | some b => [(emptyHost, b)]
    | none => []) ++
  (rulesWithPaths rules).flatMap (fun r => r.2.map (fun path => (r.1, path.Backend)))

/-- The backend of the first of the references `refs` from which
`getNameForUpstream` derives the group name `name`. -/
def firstReference (ing : Ingress) (refs : List (String × IngressBackend)) (name : String) :
    Option IngressBackend :=
  (refs.find? (fun r => decide (getNameForUpstream ing r.1 r.2.ServiceName = name))).map
    (fun r => r.2)

/-- The host rule with the given host and path list. -/
def ruleOf (host : String) (paths : List HTTPIngressPath) : IngressRule :=
  { Host := host, HTTP := some { Paths := paths } }

/-- The map binds every group name to the group built, under that name, from
the backend of the first of the references `refs` that derives the name, and
binds no other name. -/
def BuiltFrom (placeholder : UpstreamServer) (ingEx : IngressEx)
    (refs : List (String × IngressBackend)) (m : GoMap Upstream) : Prop :=
  ∀ k, m.get? k =
    (firstReference ingEx.Ingress refs k).map (fun b => createUpstream placeholder ingEx k b)

/-- The integer lies in the range of a Go `int32`. -/
def InInt32 (x : Int) : Prop := -(2 ^ 31) ≤ x ∧ x < 2 ^ 31

/-- A call of the configurator to its collaborator. -/
inductive Call where
  | addOrUpdateCertAndKey (name cert key : String)
  | addOrUpdateIngress (name : String) (cfg : IngressNginxConfig)
  | deleteIngress (name : String)
  | reload
  | updateMainConfigFile (cfg : NginxMainConfig)
  deriving DecidableEq, Repr

/-- A collaborator that records every call it receives, in order, and names a
registered pair after its secret. -/
def recorder : NginxController (List Call) :=
  { AddOrUpdateCertAndKey := fun log name cert key =>
      (name ++ ".pem", log ++ [Call.addOrUpdateCertAndKey name cert key])
    AddOrUpdateIngress := fun log name cfg => log ++ [Call.addOrUpdateIngress name cfg]
    DeleteIngress := fun log name => log ++ [Call.deleteIngress name]
    Reload := fun log => log ++ [Call.reload]
    UpdateMainConfigFile := fun log cfg => log ++ [Call.updateMainConfigFile cfg] }

/-! ## Sample inputs -/

/-- A baseline configuration. -/
def sampleConfig : Config :=
  { ProxyConnectTimeout := "60s", ProxyReadTimeout := "60s", ClientMaxBodySize := "1m",
    MainServerNamesHashBucketSize := "", MainServerNamesHashMaxSize := "" }

/-- A placeholder server. -/
def samplePlaceholder : UpstreamServer := { Address := "127.0.0.1", Port := "8181" }

/-- The two paths of the resource `cafe`. -/
def cafePaths : List HTTPIngressPath :=
  [{ Path := "/coffee", Backend := { ServiceName := "coffee-svc", ServicePort := .int 80 } },
   { Path := "/tea", Backend := { ServiceName := "tea-svc", ServicePort := .int 80 } }]

/-- The resource `cafe` of namespace `default`: one host rule with two paths, a
default backend, no TLS. -/
def cafeIngress : Ingress :=
  { Namespace := "default", Name := "cafe", Annotations := []
    Spec :=
      { Backend := some { ServiceName := "tea-svc", ServicePort := .int 80 }
        TLS := []
        Rules := [{ Host := "cafe.example.com", HTTP := some { Paths := cafePaths } }] } }

/-- A snapshot of `cafe` in which no service has endpoints yet. -/
def cafe : IngressEx := { Ingress := cafeIngress, Secrets := [], Endpoints := [] }

/-- The endpoints of a service with one address exposing port 80. -/
def singleEndpoint (ip : String) : Endpoints :=
  { Subsets := [{ Addresses := [{ IP := ip }], Ports := [{ Port := 80 }] }] }

/-- A snapshot whose two rules reference `(shop-api, web)` and `(shop, api-web)`:
two different pairs of host and service. -/
def shop : IngressEx :=
  { Ingress :=
      { Namespace := "default", Name := "shop", Annotations := []
        Spec :=
          { Backend := none
            TLS := []
            Rules :=
              [{ Host := "shop-api"
                 HTTP := some { Paths :=
                   [{ Path := "/", Backend := { ServiceName := "web", ServicePort := .int 80 } }] } },
               { Host := "shop"
                 HTTP := some { Paths :=
                   [{ Path := "/",
                      Backend := { ServiceName := "api-web", ServicePort := .int 80 } }] } }] } }
    Secrets := []
    Endpoints := [("web", singleEndpoint "10.0.0.1"), ("api-web", singleEndpoint "10.0.0.2")] }

/-- A snapshot with two host rules for the same host. -/
def twice : IngressEx :=
  { Ingress :=
      { Namespace := "default", Name := "twice", Annotations := []
        Spec :=
          { Backend := none
            TLS := []
            Rules :=
              [{ Host := "a.example.com"
                 HTTP := some { Paths :=
                   [{ Path := "/x", Backend := { ServiceName := "x-svc", ServicePort := .int 80 } }] } },
               { Host := "a.example.com"
                 HTTP := some { Paths :=
                   [{ Path := "/y",
                      Backend := { ServiceName := "y-svc", ServicePort := .int 80 } }] } }] } }
    Secrets := []
    Endpoints := [] }

/-- A snapshot with a rule without a path list, a rule with an empty host and a
rule with the root path. -/
def mixed : IngressEx :=
  { Ingress :=
      { Namespace := "default", Name := "mixed", Annotations := []
        Spec :=
          { Backend := some { ServiceName := "web", ServicePort := .int 80 }
            TLS := []
            Rules :=
              [{ Host := "skipped.example.com", HTTP := none },
               { Host := ""
                 HTTP := some { Paths :=
                   [{ Path := "/x", Backend := { ServiceName := "x-svc", ServicePort := .int 80 } }] } },
               { Host := "b.example.com"
                 HTTP := some { Paths :=
                   [{ Path := "", Backend := { ServiceName := "web", ServicePort := .int 80 } }] } }] } }
    Secrets := []
    Endpoints := [("web", singleEndpoint "10.0.0.1")] }

/-- The backend `web:80`. -/
def webBackend : IngressBackend := { ServiceName := "web", ServicePort := .int 80 }

/-- A snapshot without host rules that declares a default backend. -/
def bare : IngressEx :=
  { Ingress :=
      { Namespace := "default", Name := "bare", Annotations := []
        Spec := { Backend := some webBackend, TLS := [], Rules := [] } }
    Secrets := []
    Endpoints := [("web", singleEndpoint "10.0.0.1")] }

/-- The group of the default backend of `bare`. -/
def bareUpstream : Upstream :=
  { Name := "default-bare--web", UpstreamServers := [{ Address := "10.0.0.1", Port := "80" }] }

/-- A collaborator that stores a pair under the name of its secret and logs the
names it registered; the other calls leave the log as it is. -/
def fileController : NginxController (List String) :=
  { AddOrUpdateCertAndKey := fun log name _ _ => (name ++ ".pem", log ++ [name])
    AddOrUpdateIngress := fun log _ _ => log
    DeleteIngress := fun log _ => log
    Reload := fun log => log
    UpdateMainConfigFile := fun log _ => log }

/-- A secret with both fields. -/
def fullSecret (cert key : String) : Secret :=
  { Data := [("tls.crt", cert), ("tls.key", key)] }

/-- The TLS declaration of `renewal` that names the secret `old`. -/
def oldTLS : IngressTLS := { Hosts := ["a.example.com"], SecretName := "old" }

/-- The TLS declaration of `renewal` that names the secret `new`. -/
def newTLS : IngressTLS := { Hosts := ["a.example.com"], SecretName := "new" }

/-- A snapshot with two TLS declarations for the same host, both with a
complete secret. -/
def renewal : IngressEx :=
  { Ingress :=
      { Namespace := "default", Name := "renewal", Annotations := []
        Spec := { Backend := none, TLS := [oldTLS, newTLS], Rules := [] } }
    Secrets := [("old", fullSecret "cert1" "key1"), ("new", fullSecret "cert2" "key2")]
    Endpoints := [] }

/-- The TLS declaration of `wildcard`: no host, the secret `new`. -/
def wildcardTLS : IngressTLS := { Hosts := [], SecretName := "new" }

/-- The TLS declaration of `incomplete` whose secret lacks the key. -/
def brokenTLS : IngressTLS := { Hosts := ["b.example.com"], SecretName := "broken" }

/-- A snapshot with one rule for the empty host and one TLS declaration, which
lists no host and has a complete secret. -/
def wildcard : IngressEx :=
  { Ingress :=
      { Namespace := "default", Name := "wildcard", Annotations := []
        Spec :=
          { Backend := none
            TLS := [wildcardTLS]
            Rules := [{ Host := "", HTTP := some { Paths := [{ Path := "/", Backend := webBackend }] } }] } }
    Secrets := [("new", fullSecret "cert2" "key2")]
    Endpoints := [] }

/-- A snapshot with two TLS declarations, the first with a secret that lacks
the key. -/
def incomplete : IngressEx :=
  { Ingress :=
      { Namespace := "default", Name := "incomplete", Annotations := []
        Spec := { Backend := none, TLS := [brokenTLS, newTLS], Rules := [] } }
    Secrets := [("broken", { Data := [("tls.crt", "cert0")] }), ("new", fullSecret "cert2" "key2")]
    Endpoints := [] }

/-- A certificate map with an entry for the empty host only. -/
def wildcardPems : GoMap String := [("", "w.pem")]

/-- The server of the rule of `cafe` under the certificate map `wildcardPems`. -/
def cafeServer : Server :=
  serverFrom (rulesLoop sampleConfig samplePlaceholder cafe wildcardPems).upstreams cafe
    wildcardPems sampleConfig ("cafe.example.com", cafePaths)

/-- Endpoints with two subsets: two addresses behind port 80, listed twice, and
one address behind port 443. -/
def twoSubsets : Endpoints :=
  { Subsets :=
      [{ Addresses := [{ IP := "10.0.0.1" }, { IP := "10.0.0.2" }]
         Ports := [{ Port := 80 }, { Port := 80 }] },
       { Addresses := [{ IP := "10.0.0.3" }], Ports := [{ Port := 443 }] }] }

/-- The path `/a` to `web:80`. -/
def firstPath : HTTPIngressPath := { Path := "/a", Backend := webBackend }

/-- The path `/b` to `web:443`. -/
def laterPath : HTTPIngressPath :=
  { Path := "/b", Backend := { ServiceName := "web", ServicePort := .int 443 } }

/-- A snapshot whose rule has two paths to the service `web`, the first to its
port 80 and the second to its port 443. -/
def ports : IngressEx :=
  { Ingress :=
      { Namespace := "default", Name := "ports", Annotations := []
        Spec :=
          { Backend := none
            TLS := []
            Rules := [ruleOf "p.example.com" [firstPath, laterPath]] } }
    Secrets := []
    Endpoints := [("web", twoSubsets)] }

/-- A snapshot without rules whose resource sets the connect timeout and an
annotation that is not recognized. -/
def tuned : IngressEx :=
  { Ingress :=
      { Namespace := "default", Name := "tuned"
        Annotations := [("nginx.org/proxy-connect-timeout", "5s"), ("example.org/other", "x")]
        Spec := { Backend := some webBackend, TLS := [], Rules := [] } }
    Secrets := []
    Endpoints := [] }

/-- The path `/a` to `api-web:8080`. -/
def apiPathA : HTTPIngressPath :=
  { Path := "/a", Backend := { ServiceName := "api-web", ServicePort := .int 8080 } }

/-- The path `/b` to `api-web:9090`. -/
def apiPathB : HTTPIngressPath :=
  { Path := "/b", Backend := { ServiceName := "api-web", ServicePort := .int 9090 } }

/-- A snapshot whose first rule references `(shop-api, web)` and whose second
rule references `(shop, api-web)` twice, with two target ports. -/
def collide : IngressEx :=
  { Ingress :=
      { Namespace := "default", Name := "shop", Annotations := []
        Spec :=
          { Backend := none
            TLS := []
            Rules :=
              [ruleOf "shop-api" [{ Path := "/", Backend := webBackend }],
               ruleOf "shop" [apiPathA, apiPathB]] } }
    Secrets := []
    Endpoints :=
      [("web", singleEndpoint "10.0.0.1"),
       ("api-web",
        { Subsets :=
            [{ Addresses := [{ IP := "10.0.0.2" }], Ports := [{ Port := 8080 }] },
             { Addresses := [{ IP := "10.0.0.3" }], Ports := [{ Port := 9090 }] }] })] }

/-! # Lemmas -/

/-! ## Go maps: reads and writes -/

theorem GoMap.get?_set_self {V : Type} (m : GoMap V) (k : String) (v : V) :
    (m.set k v).get? k = some v := by
  induction m with
  | nil => simp [GoMap.set, GoMap.get?]
  | cons kv rest ih =>
    obtain ⟨k', v'⟩ := kv
    by_cases h : k' = k
    · simp [GoMap.set, GoMap.get?, h]
    · simp [GoMap.set, GoMap.get?, h, ih]

theorem GoMap.get?_set_ne {V : Type} (m : GoMap V) (k k' : String) (v : V) (h : k ≠ k') :
    (m.set k v).get? k' = m.get? k' := by
  induction m with
  | nil => simp [GoMap.set, GoMap.get?, h]
  | cons kv rest ih =>
    obtain ⟨k₀, v₀⟩ := kv
    by_cases h₀ : k₀ = k
    · subst h₀
      simp [GoMap.set, GoMap.get?, h]
    · by_cases h₁ : k₀ = k'
      · subst h₁
        simp [GoMap.set, GoMap.get?, h₀]
      · simp [GoMap.set, GoMap.get?, h₀, h₁, ih]

theorem GoMap.set_of_get?_none {V : Type} (m : GoMap V) (k : String) (v : V)
    (h : m.get? k = none) : m.set k v = m ++ [(k, v)] := by
  induction m with
  | nil => rfl
  | cons kv rest ih =>
    obtain ⟨k₀, v₀⟩ := kv
    by_cases h₀ : k₀ = k
    · simp [GoMap.get?, h₀] at h
    · simp [GoMap.get?, h₀] at h
      simp [GoMap.set, h₀, ih h]

theorem GoMap.mem_values_of_get? {V : Type} (m : GoMap V) (k : String) (v : V)
    (h : m.get? k = some v) : v ∈ m.values := by
  induction m with
  | nil => simp [GoMap.get?] at h
  | cons kv rest ih =>
    obtain ⟨k₀, v₀⟩ := kv
    by_cases h₀ : k₀ = k
    · simp [GoMap.get?, h₀] at h
      simp [GoMap.values, h]
    · simp [GoMap.get?, h₀] at h
      have := ih h
      simp [GoMap.values] at this ⊢
      exact Or.inr this

theorem foldl_append_singleton {α β : Type} (f : α → β) (l : List α) (acc : List β) :
    l.foldl (fun r a => r ++ [f a]) acc = acc ++ l.map f := by
  induction l generalizing acc with
  | nil => simp
  | cons a l ih => simp [ih]

theorem foldl_append_list {α β : Type} (f : α → List β) (l : List α) (acc : List β) :
    l.foldl (fun r a => r ++ f a) acc = acc ++ l.flatMap f := by
  induction l generalizing acc with
  | nil => simp
  | cons a l ih => simp [ih]

theorem upstreamMapToSlice_eq (m : GoMap Upstream) : upstreamMapToSlice m = m.values := by
  simp [upstreamMapToSlice, GoMap.values, foldl_append_singleton (fun kv : String × Upstream => kv.2)]

/-! ## createUpstream -/

theorem createUpstream_name (ph : UpstreamServer) (ingEx : IngressEx) (name : String)
    (backend : IngressBackend) : (createUpstream ph ingEx name backend).Name = name := by
  unfold createUpstream NewUpstreamWithDefaultServer
  cases ingEx.Endpoints.get? backend.ServiceName with
  | none => rfl
  | some e =>
    simp only
    split <;> rfl

theorem GoMap.Extends.refl {V : Type} (m : GoMap V) : GoMap.Extends m m := fun _ _ h => h

theorem GoMap.Extends.trans {V : Type} {a b c : GoMap V} (h₁ : GoMap.Extends a b)
    (h₂ : GoMap.Extends b c) : GoMap.Extends a c := fun k v h => h₂ k v (h₁ k v h)

theorem GoMap.extends_set {V : Type} (m : GoMap V) (k : String) (v : V)
    (h : m.get? k = none) : GoMap.Extends m (m.set k v) := by
  intro k' v' h'
  by_cases hk : k = k'
  · subst hk; rw [h] at h'; cases h'
  · rw [GoMap.get?_set_ne m k k' v hk]; exact h'

/-! ## The loop over the paths of a rule -/

section PathLoop
variable (ph : UpstreamServer) (ingEx : IngressEx) (ingCfg : Config) (host : String)

theorem pathStep_upstreams_eq (st : PathLoop) (path : HTTPIngressPath) :
    (pathStep ph ingEx ingCfg host st path).upstreams =
      match st.upstreams.get? (getNameForUpstream ingEx.Ingress host path.Backend.ServiceName) with
      | some _ => st.upstreams
      | none => st.upstreams.set (getNameForUpstream ingEx.Ingress host path.Backend.ServiceName)
          (createUpstream ph ingEx
            (getNameForUpstream ingEx.Ingress host path.Backend.ServiceName) path.Backend) := rfl

theorem pathStep_locations_eq (st : PathLoop) (path : HTTPIngressPath) :
    (pathStep ph ingEx ingCfg host st path).locations =
      st.locations ++ [createLocation (pathOrDefault path.Path)
        (((pathStep ph ingEx ingCfg host st path).upstreams.get?
          (getNameForUpstream ingEx.Ingress host path.Backend.ServiceName)).getD Upstream.zero)
        ingCfg] := rfl

theorem pathStep_rootLocation_eq (st : PathLoop) (path : HTTPIngressPath) :
    (pathStep ph ingEx ingCfg host st path).rootLocation =
      (st.rootLocation || decide (pathOrDefault path.Path = "/")) := by
  unfold pathStep createLocation
  by_cases h : pathOrDefault path.Path = "/" <;> simp [h]

theorem pathStep_upstreams (st : PathLoop) (path : HTTPIngressPath) :
    GoMap.Extends st.upstreams (pathStep ph ingEx ingCfg host st path).upstreams ∧
    ∃ u, (pathStep ph ingEx ingCfg host st path).upstreams.get?
      (getNameForUpstream ingEx.Ingress host path.Backend.ServiceName) = some u := by
  rw [pathStep_upstreams_eq]
  cases h : st.upstreams.get? (getNameForUpstream ingEx.Ingress host path.Backend.ServiceName) with
  | none =>
    exact ⟨GoMap.extends_set _ _ _ h, _, GoMap.get?_set_self _ _ _⟩
  | some u =>
    exact ⟨GoMap.Extends.refl _, u, h⟩

theorem pathLoop_extends (paths : List HTTPIngressPath) (st : PathLoop) :
    GoMap.Extends st.upstreams
      (paths.foldl (pathStep ph ingEx ingCfg host) st).upstreams := by
  induction paths generalizing st with
  | nil => exact GoMap.Extends.refl _
  | cons path rest ih =>
    exact GoMap.Extends.trans (pathStep_upstreams ph ingEx ingCfg host st path).1 (ih _)

theorem pathLoop_defined (paths : List HTTPIngressPath) (st : PathLoop) :
    ∀ path ∈ paths, ∃ u, (paths.foldl (pathStep ph ingEx ingCfg host) st).upstreams.get?
      (getNameForUpstream ingEx.Ingress host path.Backend.ServiceName) = some u := by
  induction paths generalizing st with
  | nil => intro path h; cases h
  | cons p rest ih =>
    intro path hmem
    rcases List.mem_cons.1 hmem with rfl | hmem
    · obtain ⟨u, hu⟩ := (pathStep_upstreams ph ingEx ingCfg host st path).2
      exact ⟨u, pathLoop_extends ph ingEx ingCfg host rest _ _ _ hu⟩
    · exact ih _ path hmem

theorem pathLoop_locations (paths : List HTTPIngressPath) (st : PathLoop) :
    (paths.foldl (pathStep ph ingEx ingCfg host) st).locations =
      st.locations ++ paths.map (fun path =>
        createLocation (pathOrDefault path.Path)
          (((paths.foldl (pathStep ph ingEx ingCfg host) st).upstreams.get?
            (getNameForUpstream ingEx.Ingress host path.Backend.ServiceName)).getD
              Upstream.zero) ingCfg) := by
  induction paths generalizing st with
  | nil => simp
  | cons p rest ih =>
    obtain ⟨u, hu⟩ := (pathStep_upstreams ph ingEx ingCfg host st p).2
    have hfin := pathLoop_extends ph ingEx ingCfg host rest _ _ _ hu
    simp only [List.foldl_cons, List.map_cons] at hfin ⊢
    rw [ih, hfin]
    rw [pathStep_locations_eq, hu]
    simp

theorem pathLoop_rootLocation (paths : List HTTPIngressPath) (st : PathLoop) :
    (paths.foldl (pathStep ph ingEx ingCfg host) st).rootLocation =
      (st.rootLocation || hasRootPath paths) := by
  induction paths generalizing st with
  | nil => simp [hasRootPath]
  | cons p rest ih =>
    simp only [List.foldl_cons]
    rw [ih]
    rw [pathStep_rootLocation_eq]
    simp [hasRootPath, Bool.or_assoc]

end PathLoop

/-! ## The loop over the rules -/

section RuleLoop
variable (ph : UpstreamServer) (ingEx : IngressEx) (pems : GoMap String) (ingCfg : Config)

theorem locationsFrom_congr (m m' : GoMap Upstream) (host : String)
    (paths : List HTTPIngressPath)
    (hp : ∀ path ∈ paths,
      m.get? (getNameForUpstream ingEx.Ingress host path.Backend.ServiceName) =
        m'.get? (getNameForUpstream ingEx.Ingress host path.Backend.ServiceName))
    (hd : ∀ backend, ingEx.Ingress.Spec.Backend = some backend →
      m.get? (getNameForUpstream ingEx.Ingress emptyHost backend.ServiceName) =
        m'.get? (getNameForUpstream ingEx.Ingress emptyHost backend.ServiceName)) :
    locationsFrom m ingEx ingCfg host paths = locationsFrom m' ingEx ingCfg host paths := by
  unfold locationsFrom
  congr 1
  · apply List.map_congr_left
    intro path hmem
    rw [hp path hmem]
  · cases hb : ingEx.Ingress.Spec.Backend with
    | none => rfl
    | some backend => simp only [hd backend hb]

theorem ruleStep_none (st : RuleLoop) (rule : IngressRule) (h : rule.HTTP = none) :
    ruleStep ph ingEx pems ingCfg st rule = st := by
  unfold ruleStep; rw [h]

theorem ruleStep_upstreams (st : RuleLoop) (rule : IngressRule) (http : HTTPIngressRuleValue)
    (h : rule.HTTP = some http) :
    (ruleStep ph ingEx pems ingCfg st rule).upstreams =
      (http.Paths.foldl (pathStep ph ingEx ingCfg rule.Host)
        { upstreams := st.upstreams, locations := [], rootLocation := false }).upstreams := by
  unfold ruleStep; rw [h]

theorem ruleStep_servers (st : RuleLoop) (rule : IngressRule) (http : HTTPIngressRuleValue)
    (h : rule.HTTP = some http) :
    (ruleStep ph ingEx pems ingCfg st rule).servers =
      st.servers ++ [serverFrom (ruleStep ph ingEx pems ingCfg st rule).upstreams ingEx pems
        ingCfg (rule.Host, http.Paths)] := by
  rw [ruleStep_upstreams ph ingEx pems ingCfg st rule http h]
  unfold ruleStep; rw [h]
  simp only [serverFrom, locationsFrom]
  congr 2
  rw [pathLoop_locations, pathLoop_rootLocation]
  cases hb : ingEx.Ingress.Spec.Backend with
  | none => simp
  | some backend =>
    by_cases hr : hasRootPath http.Paths = true
    · simp [hr]
    · simp [hr, pathOrDefault]

theorem ruleStep_extends (st : RuleLoop) (rule : IngressRule) :
    GoMap.Extends st.upstreams (ruleStep ph ingEx pems ingCfg st rule).upstreams := by
  cases h : rule.HTTP with
  | none => rw [ruleStep_none ph ingEx pems ingCfg st rule h]; exact GoMap.Extends.refl _
  | some http =>
    rw [ruleStep_upstreams ph ingEx pems ingCfg st rule http h]
    exact pathLoop_extends ph ingEx ingCfg rule.Host http.Paths
      { upstreams := st.upstreams, locations := [], rootLocation := false }

theorem ruleLoop_extends (rules : List IngressRule) (st : RuleLoop) :
    GoMap.Extends st.upstreams
      (rules.foldl (ruleStep ph ingEx pems ingCfg) st).upstreams := by
  induction rules generalizing st with
  | nil => exact GoMap.Extends.refl _
  | cons rule rest ih =>
    exact GoMap.Extends.trans (ruleStep_extends ph ingEx pems ingCfg st rule) (ih _)

theorem ruleLoop_defined (rules : List IngressRule) (st : RuleLoop) :
    ∀ r ∈ rulesWithPaths rules, ∀ path ∈ r.2,
      ∃ u, (rules.foldl (ruleStep ph ingEx pems ingCfg) st).upstreams.get?
        (getNameForUpstream ingEx.Ingress r.1 path.Backend.ServiceName) = some u := by
  induction rules generalizing st with
  | nil => intro r h; simp [rulesWithPaths] at h
  | cons rule rest ih =>
    intro r hr path hpath
    cases h : rule.HTTP with
    | none =>
      have hr' : r ∈ rulesWithPaths rest := by
        simpa [rulesWithPaths, List.filterMap_cons, h] using hr
      simp only [List.foldl_cons]
      exact ih _ r hr' path hpath
    | some http =>
      have hr' : r = (rule.Host, http.Paths) ∨ r ∈ rulesWithPaths rest := by
        simpa [rulesWithPaths, List.filterMap_cons, h] using hr
      simp only [List.foldl_cons]
      rcases hr' with rfl | hr'
      · have hd := pathLoop_defined ph ingEx ingCfg rule.Host http.Paths
          { upstreams := st.upstreams, locations := [], rootLocation := false } path hpath
        rw [← ruleStep_upstreams ph ingEx pems ingCfg st rule http h] at hd
        obtain ⟨u, hu⟩ := hd
        exact ⟨u, ruleLoop_extends ph ingEx pems ingCfg rest _ _ _ hu⟩
      · exact ih _ r hr' path hpath

theorem ruleLoop_servers (rules : List IngressRule) (st : RuleLoop)
    (hd : ∀ backend, ingEx.Ingress.Spec.Backend = some backend →
      ∃ u, st.upstreams.get?
        (getNameForUpstream ingEx.Ingress emptyHost backend.ServiceName) = some u) :
    (rules.foldl (ruleStep ph ingEx pems ingCfg) st).servers =
      st.servers ++ (rulesWithPaths rules).map
        (serverFrom (rules.foldl (ruleStep ph ingEx pems ingCfg) st).upstreams ingEx pems
          ingCfg) := by
  induction rules generalizing st with
  | nil => simp [rulesWithPaths]
  | cons rule rest ih =>
    have hext := ruleStep_extends ph ingEx pems ingCfg st rule
    have hd' : ∀ backend, ingEx.Ingress.Spec.Backend = some backend →
        ∃ u, (ruleStep ph ingEx pems ingCfg st rule).upstreams.get?
          (getNameForUpstream ingEx.Ingress emptyHost backend.ServiceName) = some u := by
      intro backend hb
      obtain ⟨u, hu⟩ := hd backend hb
      exact ⟨u, hext _ _ hu⟩
    simp only [List.foldl_cons]
    rw [ih _ hd']
    cases h : rule.HTTP with
    | none =>
      rw [ruleStep_none ph ingEx pems ingCfg st rule h]
      simp [rulesWithPaths, List.filterMap_cons, h]
    | some http =>
      rw [ruleStep_servers ph ingEx pems ingCfg st rule http h]
      have hfin := ruleLoop_extends ph ingEx pems ingCfg rest
        (ruleStep ph ingEx pems ingCfg st rule)
      have hsame : serverFrom (ruleStep ph ingEx pems ingCfg st rule).upstreams ingEx pems
            ingCfg (rule.Host, http.Paths) =
          serverFrom (rest.foldl (ruleStep ph ingEx pems ingCfg)
            (ruleStep ph ingEx pems ingCfg st rule)).upstreams ingEx pems ingCfg
            (rule.Host, http.Paths) := by
        have hloc : locationsFrom (ruleStep ph ingEx pems ingCfg st rule).upstreams ingEx
              ingCfg rule.Host http.Paths =
            locationsFrom (rest.foldl (ruleStep ph ingEx pems ingCfg)
              (ruleStep ph ingEx pems ingCfg st rule)).upstreams ingEx ingCfg
              rule.Host http.Paths := by
          apply locationsFrom_congr
          · intro path hpath
            have hdef := pathLoop_defined ph ingEx ingCfg rule.Host http.Paths
              { upstreams := st.upstreams, locations := [], rootLocation := false } path hpath
            rw [← ruleStep_upstreams ph ingEx pems ingCfg st rule http h] at hdef
            obtain ⟨u, hu⟩ := hdef
            rw [hu, hfin _ _ hu]
          · intro backend hb
            obtain ⟨u, hu⟩ := hd' backend hb
            rw [hu, hfin _ _ hu]
        simp only [serverFrom]
        rw [hloc]
      rw [hsame]
      simp [rulesWithPaths, List.filterMap_cons, h]

end RuleLoop

/-! ## `generateNginxCfg` as a whole -/

section Generate
variable (config : Config) (ph : UpstreamServer) (ingEx : IngressEx) (pems : GoMap String)

theorem namedByKey_set (m : GoMap Upstream) (k : String) (u : Upstream) (hm : NamedByKey m)
    (hu : u.Name = k) : NamedByKey (m.set k u) := by
  intro k' u' h
  by_cases hk : k = k'
  · subst hk
    rw [GoMap.get?_set_self] at h
    cases h; exact hu
  · rw [GoMap.get?_set_ne m k k' u hk] at h
    exact hm k' u' h

theorem pathStep_namedByKey (ingCfg : Config) (host : String) (st : PathLoop)
    (path : HTTPIngressPath) (h : NamedByKey st.upstreams) :
    NamedByKey (pathStep ph ingEx ingCfg host st path).upstreams := by
  rw [pathStep_upstreams_eq]
  cases hg : st.upstreams.get?
      (getNameForUpstream ingEx.Ingress host path.Backend.ServiceName) with
  | none => exact namedByKey_set _ _ _ h (createUpstream_name _ _ _ _)
  | some u => exact h

theorem pathLoop_namedByKey (ingCfg : Config) (host : String) (paths : List HTTPIngressPath)
    (st : PathLoop) (h : NamedByKey st.upstreams) :
    NamedByKey (paths.foldl (pathStep ph ingEx ingCfg host) st).upstreams := by
  induction paths generalizing st with
  | nil => exact h
  | cons path rest ih => exact ih _ (pathStep_namedByKey ph ingEx ingCfg host st path h)

theorem ruleLoop_namedByKey (ingCfg : Config) (rules : List IngressRule) (st : RuleLoop)
    (h : NamedByKey st.upstreams) :
    NamedByKey (rules.foldl (ruleStep ph ingEx pems ingCfg) st).upstreams := by
  induction rules generalizing st with
  | nil => exact h
  | cons rule rest ih =>
    apply ih
    cases hh : rule.HTTP with
    | none => rw [ruleStep_none ph ingEx pems ingCfg st rule hh]; exact h
    | some http =>
      rw [ruleStep_upstreams ph ingEx pems ingCfg st rule http hh]
      exact pathLoop_namedByKey ph ingEx ingCfg rule.Host http.Paths
        { upstreams := st.upstreams, locations := [], rootLocation := false } h

theorem initialUpstreams_default (backend : IngressBackend)
    (hb : ingEx.Ingress.Spec.Backend = some backend) :
    (initialUpstreams ph ingEx).get?
      (getNameForUpstream ingEx.Ingress emptyHost backend.ServiceName) =
        some (defaultUpstream ph ingEx backend) := by
  unfold initialUpstreams
  rw [hb]
  exact GoMap.get?_set_self _ _ _

theorem initialUpstreams_namedByKey : NamedByKey (initialUpstreams ph ingEx) := by
  unfold initialUpstreams
  cases hb : ingEx.Ingress.Spec.Backend with
  | none => intro k u h; simp [GoMap.get?] at h
  | some backend =>
    apply namedByKey_set
    · intro k u h; simp [GoMap.get?] at h
    · exact createUpstream_name _ _ _ _

theorem rulesLoop_default (backend : IngressBackend)
    (hb : ingEx.Ingress.Spec.Backend = some backend) :
    (rulesLoop config ph ingEx pems).upstreams.get?
      (getNameForUpstream ingEx.Ingress emptyHost backend.ServiceName) =
        some (defaultUpstream ph ingEx backend) :=
  ruleLoop_extends ph ingEx pems (createConfig config ingEx) ingEx.Ingress.Spec.Rules
    { upstreams := initialUpstreams ph ingEx, servers := [] } _ _
    (initialUpstreams_default ph ingEx backend hb)

theorem rulesLoop_defined :
    ∀ r ∈ rulesWithPaths ingEx.Ingress.Spec.Rules, ∀ path ∈ r.2,
      ∃ u, (rulesLoop config ph ingEx pems).upstreams.get?
          (getNameForUpstream ingEx.Ingress r.1 path.Backend.ServiceName) = some u ∧
        u.Name = getNameForUpstream ingEx.Ingress r.1 path.Backend.ServiceName := by
  intro r hr path hpath
  obtain ⟨u, hu⟩ := ruleLoop_defined ph ingEx pems (createConfig config ingEx)
    ingEx.Ingress.Spec.Rules { upstreams := initialUpstreams ph ingEx, servers := [] }
    r hr path hpath
  refine ⟨u, hu, ?_⟩
  exact ruleLoop_namedByKey ph ingEx pems (createConfig config ingEx) ingEx.Ingress.Spec.Rules
    { upstreams := initialUpstreams ph ingEx, servers := [] }
    (initialUpstreams_namedByKey ph ingEx) _ _ hu

theorem rulesLoop_servers :
    (rulesLoop config ph ingEx pems).servers =
      (rulesWithPaths ingEx.Ingress.Spec.Rules).map
        (serverFrom (rulesLoop config ph ingEx pems).upstreams ingEx pems
          (createConfig config ingEx)) := by
  have h := ruleLoop_servers ph ingEx pems (createConfig config ingEx) ingEx.Ingress.Spec.Rules
    { upstreams := initialUpstreams ph ingEx, servers := [] }
    (fun backend hb => ⟨_, initialUpstreams_default ph ingEx backend hb⟩)
  simpa [rulesLoop] using h

theorem generateNginxCfg_upstreams :
    (generateNginxCfg config ph ingEx pems).Upstreams =
      (rulesLoop config ph ingEx pems).upstreams.values := by
  simp [generateNginxCfg, upstreamMapToSlice_eq]

theorem generateNginxCfg_servers_of_rules (h : ingEx.Ingress.Spec.Rules ≠ []) :
    (generateNginxCfg config ph ingEx pems).Servers =
      (rulesWithPaths ingEx.Ingress.Spec.Rules).map
        (serverFrom (rulesLoop config ph ingEx pems).upstreams ingEx pems
          (createConfig config ingEx)) := by
  have hlen : ¬ ingEx.Ingress.Spec.Rules.length = 0 := by
    simpa [List.length_eq_zero] using h
  unfold generateNginxCfg
  simp only [hlen, if_false]
  rw [rulesLoop_servers]
  cases ingEx.Ingress.Spec.Backend <;> rfl

theorem generateNginxCfg_servers_none (h : ingEx.Ingress.Spec.Backend = none) :
    (generateNginxCfg config ph ingEx pems).Servers =
      (rulesWithPaths ingEx.Ingress.Spec.Rules).map
        (serverFrom (rulesLoop config ph ingEx pems).upstreams ingEx pems
          (createConfig config ingEx)) := by
  unfold generateNginxCfg
  simp only [h]
  rw [rulesLoop_servers]

theorem generateNginxCfg_servers_default (backend : IngressBackend)
    (hb : ingEx.Ingress.Spec.Backend = some backend) (h : ingEx.Ingress.Spec.Rules = []) :
    (generateNginxCfg config ph ingEx pems).Servers =
      [hostlessServer ph ingEx pems (createConfig config ingEx) backend] := by
  have hd := rulesLoop_default config ph ingEx pems backend hb
  have hs := rulesLoop_servers config ph ingEx pems
  unfold generateNginxCfg
  simp only [hb, h, List.length_nil, if_true]
  rw [h] at hs
  simp only [rulesWithPaths, List.filterMap_nil, List.map_nil] at hs
  rw [hs, hd]
  simp [pathOrDefault, hostlessServer]

/-! ## The servers of the configuration -/

theorem rulesWithPaths_nil_of_rules {rules : List IngressRule} (h : rules = []) :
    rulesWithPaths rules = [] := by subst h; rfl

theorem generateNginxCfg_servers :
    (generateNginxCfg config ph ingEx pems).Servers =
      (rulesWithPaths ingEx.Ingress.Spec.Rules).map
        (serverFrom (rulesLoop config ph ingEx pems).upstreams ingEx pems
          (createConfig config ingEx)) ++
      (match ingEx.Ingress.Spec.Backend with
        | some backend =>
          if ingEx.Ingress.Spec.Rules.length = 0 then
            [hostlessServer ph ingEx pems (createConfig config ingEx) backend]
          else []
        | none => []) := by
  by_cases h : ingEx.Ingress.Spec.Rules = []
  · cases hb : ingEx.Ingress.Spec.Backend with
    | none =>
      rw [generateNginxCfg_servers_none config ph ingEx pems hb]; simp
    | some backend =>
      rw [generateNginxCfg_servers_default config ph ingEx pems backend hb h]
      simp [h, rulesWithPaths]
  · rw [generateNginxCfg_servers_of_rules config ph ingEx pems h]
    have hlen : ¬ ingEx.Ingress.Spec.Rules.length = 0 := by
      simpa [List.length_eq_zero] using h
    cases hb : ingEx.Ingress.Spec.Backend <;> simp [hlen]

theorem mem_locationsFrom (m : GoMap Upstream) (ingCfg : Config) (host : String)
    (paths : List HTTPIngressPath) (loc : Location)
    (h : loc ∈ locationsFrom m ingEx ingCfg host paths) :
    (∃ path ∈ paths, loc = createLocation (pathOrDefault path.Path)
      ((m.get? (getNameForUpstream ingEx.Ingress host path.Backend.ServiceName)).getD
        Upstream.zero) ingCfg) ∨
    (∃ backend, ingEx.Ingress.Spec.Backend = some backend ∧ hasRootPath paths = false ∧
      loc = createLocation "/"
        ((m.get? (getNameForUpstream ingEx.Ingress emptyHost backend.ServiceName)).getD
          Upstream.zero) ingCfg) := by
  unfold locationsFrom at h
  rcases List.mem_append.1 h with h | h
  · left
    obtain ⟨path, hp, rfl⟩ := List.mem_map.1 h
    exact ⟨path, hp, rfl⟩
  · right
    cases hb : ingEx.Ingress.Spec.Backend with
    | none => rw [hb] at h; simp at h
    | some backend =>
      rw [hb] at h
      by_cases hr : hasRootPath paths = true
      · simp [hr] at h
      · simp only [hr] at h
        simp at h
        exact ⟨backend, rfl, by simpa using hr, h⟩

theorem hostlessServer_locations (ingCfg : Config) (backend : IngressBackend) :
    (hostlessServer ph ingEx pems ingCfg backend).Locations =
      [createLocation "/" (defaultUpstream ph ingEx backend) ingCfg] := rfl

/-! ## The server of a rule and its Locations -/

theorem serverFrom_name (m : GoMap Upstream) (ingCfg : Config)
    (r : String × List HTTPIngressPath) : (serverFrom m ingEx pems ingCfg r).Name = r.1 := by
  unfold serverFrom serverWithCert
  cases pems.get? r.1 <;> rfl

theorem serverFrom_locations (m : GoMap Upstream) (ingCfg : Config)
    (r : String × List HTTPIngressPath) :
    (serverFrom m ingEx pems ingCfg r).Locations = locationsFrom m ingEx ingCfg r.1 r.2 := rfl

theorem createLocation_path (path : String) (u : Upstream) (cfg : Config) :
    (createLocation path u cfg).Path = path := rfl

theorem rules_ne_nil_of_rulesWithPaths {rules : List IngressRule} {i : Nat}
    {r : String × List HTTPIngressPath} (h : (rulesWithPaths rules)[i]? = some r) :
    rules ≠ [] := by
  intro hnil
  subst hnil
  simp [rulesWithPaths] at h

/-- The server at the position of a rule with a path list is the server read
off the final map for that rule. -/
theorem generateNginxCfg_server_at (i : Nat) (r : String × List HTTPIngressPath)
    (hi : (rulesWithPaths ingEx.Ingress.Spec.Rules)[i]? = some r) :
    (generateNginxCfg config ph ingEx pems).Servers[i]? =
      some (serverFrom (rulesLoop config ph ingEx pems).upstreams ingEx pems
        (createConfig config ingEx) r) := by
  rw [generateNginxCfg_servers_of_rules config ph ingEx pems
    (rules_ne_nil_of_rulesWithPaths hi)]
  rw [List.getElem?_map, hi]
  rfl

theorem countP_root_paths (m : GoMap Upstream) (ingCfg : Config) (host : String)
    (paths : List HTTPIngressPath) (h : hasRootPath paths = false) :
    (paths.map (fun path =>
      createLocation (pathOrDefault path.Path)
        ((m.get? (getNameForUpstream ingEx.Ingress host path.Backend.ServiceName)).getD
          Upstream.zero) ingCfg)).countP (fun loc => decide (loc.Path = "/")) = 0 := by
  rw [List.countP_eq_zero]
  intro loc hloc
  obtain ⟨path, hp, rfl⟩ := List.mem_map.1 hloc
  simp only [createLocation_path]
  have := List.any_eq_false.1 h path hp
  simpa using this

theorem locationsFrom_paths (m : GoMap Upstream) (ingCfg : Config) (host : String)
    (paths : List HTTPIngressPath) :
    (locationsFrom m ingEx ingCfg host paths).map (fun loc => loc.Path) =
      paths.map (fun path => pathOrDefault path.Path) ++
        (match ingEx.Ingress.Spec.Backend with
          | some _ => if hasRootPath paths then [] else ["/"]
          | none => []) := by
  unfold locationsFrom
  rw [List.map_append, List.map_map]
  congr 1
  cases ingEx.Ingress.Spec.Backend with
  | none => rfl
  | some backend =>
    by_cases hr : hasRootPath paths = true
    · simp [hr]
    · simp [hr, createLocation]

/-! ## The names of the servers -/

theorem generateNginxCfg_server_names (h : ingEx.Ingress.Spec.Rules ≠ []) :
    (generateNginxCfg config ph ingEx pems).Servers.map (fun srv => srv.Name) =
      (rulesWithPaths ingEx.Ingress.Spec.Rules).map (fun r => r.1) := by
  rw [generateNginxCfg_servers_of_rules config ph ingEx pems h, List.map_map]
  apply List.map_congr_left
  intro r _
  exact serverFrom_name ingEx pems _ _ r

theorem generateNginxCfg_servers_nil (h : ingEx.Ingress.Spec.Rules = [])
    (hb : ingEx.Ingress.Spec.Backend = none) :
    (generateNginxCfg config ph ingEx pems).Servers = [] := by
  rw [generateNginxCfg_servers_none config ph ingEx pems hb, h]
  rfl

/-! ## The number of Locations -/

theorem locationsFrom_length (m : GoMap Upstream) (ingCfg : Config) (host : String)
    (paths : List HTTPIngressPath) :
    (locationsFrom m ingEx ingCfg host paths).length =
      paths.length +
        (match ingEx.Ingress.Spec.Backend with
          | some _ => if hasRootPath paths then 0 else 1
          | none => 0) := by
  have h := congrArg List.length (locationsFrom_paths ingEx m ingCfg host paths)
  rw [List.length_map, List.length_append, List.length_map] at h
  rw [h]
  cases ingEx.Ingress.Spec.Backend with
  | none => rfl
  | some backend => by_cases hr : hasRootPath paths = true <;> simp [hr]

theorem serverFrom_locations_sum (m : GoMap Upstream) (ingCfg : Config)
    (rs : List (String × List HTTPIngressPath)) :
    ((rs.map (serverFrom m ingEx pems ingCfg)).map (fun srv => srv.Locations.length)).sum =
      (rs.map (fun r => r.2.length)).sum +
        (match ingEx.Ingress.Spec.Backend with
          | some _ => (rs.filter (fun r => !hasRootPath r.2)).length
          | none => 0) := by
  induction rs with
  | nil => cases ingEx.Ingress.Spec.Backend <;> rfl
  | cons r rest ih =>
    simp only [List.map_cons, List.sum_cons, serverFrom_locations, locationsFrom_length]
    rw [ih]
    cases ingEx.Ingress.Spec.Backend with
    | none => simp only; omega
    | some backend =>
      by_cases hr : hasRootPath r.2 = true
      · simp only [hr, List.filter_cons]; simp
        omega
      · simp only [hr, List.filter_cons]; simp
        omega

theorem generateNginxCfg_locations_sum :
    ((generateNginxCfg config ph ingEx pems).Servers.map
        (fun srv => srv.Locations.length)).sum =
      ((rulesWithPaths ingEx.Ingress.Spec.Rules).map (fun r => r.2.length)).sum +
        synthesizedCount ingEx.Ingress := by
  rw [generateNginxCfg_servers, List.map_append, List.sum_append, serverFrom_locations_sum]
  unfold synthesizedCount
  cases ingEx.Ingress.Spec.Backend with
  | none => simp
  | some backend =>
    by_cases hl : ingEx.Ingress.Spec.Rules.length = 0
    · simp [hl, hostlessServer_locations]
      omega
    · simp [hl]

end Generate

/-! ## `updateCertificates` -/

section Certificates
variable {σ : Type} (ctl : NginxController σ) (ingEx : IngressEx)

theorem get?_foldl_set {V : Type} (hosts : List String) (m : GoMap V) (v : V) (k : String) :
    (hosts.foldl (fun pems host => GoMap.set pems host v) m).get? k =
      if k ∈ hosts then some v else m.get? k := by
  induction hosts generalizing m with
  | nil => simp
  | cons h rest ih =>
    simp only [List.foldl_cons]
    rw [ih]
    by_cases hk : k ∈ rest
    · simp [hk]
    · by_cases hh : h = k
      · subst hh; simp [hk, GoMap.get?_set_self]
      · have hne : ¬ k = h := fun e => hh e.symm
        simp [hk, hne, GoMap.get?_set_ne m h k v hh]

theorem tlsStep_skip (st : CertLoop σ) (tls : IngressTLS) (h : certAndKey ingEx tls = none) :
    tlsStep ctl ingEx st tls = st := by
  simp only [certAndKey] at h
  simp only [tlsStep]
  cases hs : ingEx.Secrets.get? tls.SecretName with
  | none => rfl
  | some secret =>
    simp only [hs] at h ⊢
    cases hc : secret.Data.get? TLSCertKey with
    | none => rfl
    | some cert =>
      simp only [hc] at h ⊢
      cases hk : secret.Data.get? TLSPrivateKeyKey with
      | none => rfl
      | some key => simp [hk] at h

theorem tlsStep_register (st : CertLoop σ) (tls : IngressTLS) (cert key : String)
    (h : certAndKey ingEx tls = some (cert, key)) :
    tlsStep ctl ingEx st tls =
      { pems :=
          if tls.Hosts.length = 0 then
            (tls.Hosts.foldl (fun pems host => GoMap.set pems host
              (ctl.AddOrUpdateCertAndKey st.nginx tls.SecretName cert key).1) st.pems).set
                emptyHost (ctl.AddOrUpdateCertAndKey st.nginx tls.SecretName cert key).1
          else
            tls.Hosts.foldl (fun pems host => GoMap.set pems host
              (ctl.AddOrUpdateCertAndKey st.nginx tls.SecretName cert key).1) st.pems
        nginx := (ctl.AddOrUpdateCertAndKey st.nginx tls.SecretName cert key).2 } := by
  simp only [certAndKey] at h
  simp only [tlsStep]
  cases hs : ingEx.Secrets.get? tls.SecretName with
  | none => simp [hs] at h
  | some secret =>
    simp only [hs] at h ⊢
    cases hc : secret.Data.get? TLSCertKey with
    | none => simp [hc] at h
    | some c =>
      simp only [hc] at h ⊢
      cases hk : secret.Data.get? TLSPrivateKeyKey with
      | none => simp [hk] at h
      | some k =>
        simp only [hk, Option.some.injEq, Prod.mk.injEq] at h ⊢
        obtain ⟨rfl, rfl⟩ := h
        rfl

theorem tlsStep_get?_of_mem (st : CertLoop σ) (tls : IngressTLS) (cert key host : String)
    (h : certAndKey ingEx tls = some (cert, key)) (hhost : host ∈ tls.Hosts) :
    (tlsStep ctl ingEx st tls).pems.get? host =
      some (ctl.AddOrUpdateCertAndKey st.nginx tls.SecretName cert key).1 := by
  rw [tlsStep_register ctl ingEx st tls cert key h]
  have hne : ¬ tls.Hosts.length = 0 := by
    intro h0
    rw [List.length_eq_zero] at h0
    rw [h0] at hhost
    cases hhost
  simp only [hne, if_false]
  rw [get?_foldl_set]
  simp [hhost]

theorem tlsStep_get?_of_not_mem (st : CertLoop σ) (tls : IngressTLS) (host : String)
    (h : certAndKey ingEx tls ≠ none → host ∉ tls.Hosts ∧ ¬ (tls.Hosts = [] ∧ host = emptyHost)) :
    (tlsStep ctl ingEx st tls).pems.get? host = st.pems.get? host := by
  cases hv : certAndKey ingEx tls with
  | none => rw [tlsStep_skip ctl ingEx st tls hv]
  | some ck =>
    obtain ⟨cert, key⟩ := ck
    have hh := h (by rw [hv]; simp)
    rw [tlsStep_register ctl ingEx st tls cert key hv]
    by_cases h0 : tls.Hosts.length = 0
    · have hnil : tls.Hosts = [] := List.length_eq_zero.1 h0
      have hne : emptyHost ≠ host := fun e => hh.2 ⟨hnil, e.symm⟩
      simp only [h0, if_true]
      rw [GoMap.get?_set_ne _ _ _ _ hne, get?_foldl_set]
      simp [hh.1]
    · simp only [h0, if_false]
      rw [get?_foldl_set]
      simp [hh.1]

theorem tlsLoop_get?_of_not_mem (post : List IngressTLS) (st : CertLoop σ) (host : String)
    (h : ∀ tls ∈ post, certAndKey ingEx tls ≠ none →
      host ∉ tls.Hosts ∧ ¬ (tls.Hosts = [] ∧ host = emptyHost)) :
    (post.foldl (tlsStep ctl ingEx) st).pems.get? host = st.pems.get? host := by
  induction post generalizing st with
  | nil => rfl
  | cons tls rest ih =>
    simp only [List.foldl_cons]
    rw [ih _ (fun t ht => h t (List.mem_cons_of_mem _ ht))]
    exact tlsStep_get?_of_not_mem ctl ingEx st tls host (h tls (List.mem_cons_self _ _))

end Certificates

/-! ## More on `updateCertificates` and the TLS fields of a server -/

section CertificatesMore
variable {σ : Type} (ctl : NginxController σ) (ingEx : IngressEx)

theorem certAndKey_eq_none_of_incomplete (tls : IngressTLS)
    (h : ingEx.Secrets.get? tls.SecretName = none ∨
      ∃ secret, ingEx.Secrets.get? tls.SecretName = some secret ∧
        (secret.Data.get? TLSCertKey = none ∨ secret.Data.get? TLSPrivateKeyKey = none)) :
    certAndKey ingEx tls = none := by
  simp only [certAndKey]
  rcases h with h | ⟨secret, hs, h | h⟩
  · simp only [h]
  · simp only [hs, h]
  · simp only [hs, h]
    cases secret.Data.get? TLSCertKey <;> rfl

theorem tlsLoop_skip_all (l : List IngressTLS) (st : CertLoop σ)
    (h : ∀ tls ∈ l, certAndKey ingEx tls = none) :
    l.foldl (tlsStep ctl ingEx) st = st := by
  induction l generalizing st with
  | nil => rfl
  | cons tls rest ih =>
    simp only [List.foldl_cons]
    rw [tlsStep_skip ctl ingEx st tls (h tls (List.mem_cons_self _ _))]
    exact ih st (fun t ht => h t (List.mem_cons_of_mem _ ht))

theorem tlsStep_withTLS (l : List IngressTLS) :
    tlsStep ctl (withTLS ingEx l) = tlsStep ctl ingEx := rfl

theorem updateCertificates_eq_foldl (nginx : σ) :
    updateCertificates ctl nginx ingEx =
      ingEx.Ingress.Spec.TLS.foldl (tlsStep ctl ingEx) { pems := [], nginx := nginx } := rfl

theorem updateCertificates_withTLS (nginx : σ) (l : List IngressTLS) :
    updateCertificates ctl nginx (withTLS ingEx l) =
      l.foldl (tlsStep ctl ingEx) { pems := [], nginx := nginx } := rfl

end CertificatesMore

theorem serverWithCert_tls (name : String) (pems : GoMap String) (locations : List Location)
    (srv : Server) (h : srv = { serverWithCert name pems with Locations := locations }) :
    srv.Name = name ∧
    (srv.SSL = true ↔ ∃ pemFile, pems.get? name = some pemFile) ∧
    (∀ pemFile, pems.get? name = some pemFile →
      srv.SSLCertificate = pemFile ∧ srv.SSLCertificateKey = pemFile) ∧
    (pems.get? name = none →
      srv.SSL = false ∧ srv.SSLCertificate = "" ∧ srv.SSLCertificateKey = "") := by
  subst h
  unfold serverWithCert
  cases hp : pems.get? name with
  | none => simp
  | some pemFile => simp

theorem generateNginxCfg_server_shape (config : Config) (ph : UpstreamServer)
    (ingEx : IngressEx) (pems : GoMap String) (srv : Server)
    (hsrv : srv ∈ (generateNginxCfg config ph ingEx pems).Servers) :
    ∃ name locations, srv = { serverWithCert name pems with Locations := locations } := by
  rw [generateNginxCfg_servers] at hsrv
  rcases List.mem_append.1 hsrv with hsrv | hsrv
  · obtain ⟨r, _, rfl⟩ := List.mem_map.1 hsrv
    exact ⟨r.1, _, rfl⟩
  · cases hb : ingEx.Ingress.Spec.Backend with
    | none => rw [hb] at hsrv; simp at hsrv
    | some backend =>
      rw [hb] at hsrv
      by_cases hlen : ingEx.Ingress.Spec.Rules.length = 0
      · simp only [hlen, if_true, List.mem_singleton] at hsrv
        exact ⟨emptyHost, _, hsrv⟩
      · simp [hlen] at hsrv

/-! ## The overlay of annotations and the settings of a Location -/

theorem createConfig_fields (config : Config) (ingEx : IngressEx) :
    (createConfig config ingEx).ProxyConnectTimeout =
      (ingEx.Ingress.Annotations.get? "nginx.org/proxy-connect-timeout").getD
        config.ProxyConnectTimeout ∧
    (createConfig config ingEx).ProxyReadTimeout =
      (ingEx.Ingress.Annotations.get? "nginx.org/proxy-read-timeout").getD
        config.ProxyReadTimeout ∧
    (createConfig config ingEx).ClientMaxBodySize =
      (ingEx.Ingress.Annotations.get? "nginx.org/client-max-body-size").getD
        config.ClientMaxBodySize ∧
    (createConfig config ingEx).MainServerNamesHashBucketSize =
      config.MainServerNamesHashBucketSize ∧
    (createConfig config ingEx).MainServerNamesHashMaxSize =
      config.MainServerNamesHashMaxSize := by
  simp only [createConfig]
  cases ingEx.Ingress.Annotations.get? "nginx.org/proxy-connect-timeout" <;>
    cases ingEx.Ingress.Annotations.get? "nginx.org/proxy-read-timeout" <;>
    cases ingEx.Ingress.Annotations.get? "nginx.org/client-max-body-size" <;>
    simp

theorem createConfig_withAnnotations (config : Config) (ingEx : IngressEx)
    (annotations : GoMap String)
    (h1 : annotations.get? "nginx.org/proxy-connect-timeout" =
      ingEx.Ingress.Annotations.get? "nginx.org/proxy-connect-timeout")
    (h2 : annotations.get? "nginx.org/proxy-read-timeout" =
      ingEx.Ingress.Annotations.get? "nginx.org/proxy-read-timeout")
    (h3 : annotations.get? "nginx.org/client-max-body-size" =
      ingEx.Ingress.Annotations.get? "nginx.org/client-max-body-size") :
    createConfig config (withAnnotations ingEx annotations) = createConfig config ingEx := by
  simp only [createConfig, withAnnotations, h1, h2, h3]

theorem generateNginxCfg_withAnnotations (config : Config) (ph : UpstreamServer)
    (ingEx : IngressEx) (pems : GoMap String) (annotations : GoMap String)
    (h : createConfig config (withAnnotations ingEx annotations) = createConfig config ingEx) :
    generateNginxCfg config ph (withAnnotations ingEx annotations) pems =
      generateNginxCfg config ph ingEx pems := by
  simp only [generateNginxCfg, rulesLoop, h]
  rfl

theorem generateNginxCfg_location_cfg (config : Config) (ph : UpstreamServer)
    (ingEx : IngressEx) (pems : GoMap String) (srv : Server) (loc : Location)
    (hsrv : srv ∈ (generateNginxCfg config ph ingEx pems).Servers)
    (hloc : loc ∈ srv.Locations) :
    loc.ProxyConnectTimeout = (createConfig config ingEx).ProxyConnectTimeout ∧
    loc.ProxyReadTimeout = (createConfig config ingEx).ProxyReadTimeout ∧
    loc.ClientMaxBodySize = (createConfig config ingEx).ClientMaxBodySize := by
  rw [generateNginxCfg_servers] at hsrv
  rcases List.mem_append.1 hsrv with hsrv | hsrv
  · obtain ⟨r, _, rfl⟩ := List.mem_map.1 hsrv
    have hloc' : loc ∈ locationsFrom (rulesLoop config ph ingEx pems).upstreams ingEx
        (createConfig config ingEx) r.1 r.2 := hloc
    rcases mem_locationsFrom ingEx _ _ _ _ _ hloc' with ⟨path, _, rfl⟩ | ⟨backend, _, _, rfl⟩ <;>
      exact ⟨rfl, rfl, rfl⟩
  · cases hb : ingEx.Ingress.Spec.Backend with
    | none => rw [hb] at hsrv; simp at hsrv
    | some backend =>
      rw [hb] at hsrv
      by_cases hlen : ingEx.Ingress.Spec.Rules.length = 0
      · simp only [hlen, if_true, List.mem_singleton] at hsrv
        subst hsrv
        rw [hostlessServer_locations, List.mem_singleton] at hloc
        subst hloc
        exact ⟨rfl, rfl, rfl⟩
      · simp [hlen] at hsrv

/-! ## The servers behind a port -/

theorem toInt32_of_inInt32 (x : Int) (h : InInt32 x) : toInt32 x = x := by
  obtain ⟨h1, h2⟩ := h
  unfold toInt32
  have : (x + 2 ^ 31) % 2 ^ 32 = x + 2 ^ 31 := by
    apply Int.emod_eq_of_lt <;> omega
  omega

theorem addresses_foldl (subset : EndpointSubset) (servicePort : Int) :
    subset.Addresses.foldl
        (fun acc address =>
          acc ++ [({ Address := address.IP, Port := toString servicePort } : UpstreamServer)]) [] =
      subset.Addresses.map
        (fun address => ({ Address := address.IP, Port := toString servicePort } : UpstreamServer)) := by
  rw [foldl_append_singleton (fun address : EndpointAddress =>
    ({ Address := address.IP, Port := toString servicePort } : UpstreamServer))]
  simp

theorem subsetUpstreamServers_eq (subset : EndpointSubset) (servicePort : Int)
    (ports : List EndpointPort) :
    subsetUpstreamServers subset servicePort ports =
      if ports.any (fun port => decide (port.Port = toInt32 servicePort)) then
        subset.Addresses.map
          (fun address => { Address := address.IP, Port := toString servicePort })
      else [] := by
  induction ports with
  | nil => simp [subsetUpstreamServers]
  | cons port rest ih =>
    unfold subsetUpstreamServers
    by_cases h : port.Port = toInt32 servicePort
    · simp only [h, if_true, List.any_cons, decide_True, Bool.true_or]
      exact addresses_foldl subset servicePort
    · simp only [h, if_false, List.any_cons, decide_False, Bool.false_or]
      exact ih

theorem endpointsToUpstreamServers_eq (endps : Endpoints) (servicePort : Int) :
    endpointsToUpstreamServers endps servicePort =
      endps.Subsets.flatMap (fun subset =>
        if subset.Ports.any (fun port => decide (port.Port = toInt32 servicePort)) then
          subset.Addresses.map
            (fun address => { Address := address.IP, Port := toString servicePort })
        else []) := by
  unfold endpointsToUpstreamServers
  rw [foldl_append_list (fun subset : EndpointSubset =>
    subsetUpstreamServers subset servicePort subset.Ports)]
  simp only [List.nil_append]
  congr 1
  funext subset
  exact subsetUpstreamServers_eq subset servicePort subset.Ports

theorem endpointsToUpstreamServers_of_inInt32 (endps : Endpoints) (servicePort : Int)
    (h : InInt32 servicePort) :
    endpointsToUpstreamServers endps servicePort =
      endps.Subsets.flatMap (fun subset =>
        if subset.Ports.any (fun port => decide (port.Port = servicePort)) then
          subset.Addresses.map
            (fun address => { Address := address.IP, Port := toString servicePort })
        else []) := by
  rw [endpointsToUpstreamServers_eq, toInt32_of_inInt32 servicePort h]

/-! ## The group of a name is built from its first reference -/

section FirstReference
variable (ph : UpstreamServer) (ingEx : IngressEx)

theorem firstReference_append (refs more : List (String × IngressBackend)) (k : String) :
    firstReference ingEx.Ingress (refs ++ more) k =
      (firstReference ingEx.Ingress refs k).or (firstReference ingEx.Ingress more k) := by
  unfold firstReference
  rw [List.find?_append]
  cases List.find? (fun r => decide (getNameForUpstream ingEx.Ingress r.1 r.2.ServiceName = k))
    refs <;> rfl

theorem firstReference_of_mem (refs : List (String × IngressBackend)) (host : String)
    (b : IngressBackend) (h : (host, b) ∈ refs) :
    ∃ b₀, firstReference ingEx.Ingress refs
      (getNameForUpstream ingEx.Ingress host b.ServiceName) = some b₀ := by
  unfold firstReference
  cases hf : List.find?
      (fun r => decide (getNameForUpstream ingEx.Ingress r.1 r.2.ServiceName =
        getNameForUpstream ingEx.Ingress host b.ServiceName)) refs with
  | none =>
    have := List.find?_eq_none.1 hf (host, b) h
    simp at this
  | some r => exact ⟨r.2, rfl⟩

theorem builtFrom_step (refs : List (String × IngressBackend)) (m : GoMap Upstream)
    (host : String) (b : IngressBackend) (h : BuiltFrom ph ingEx refs m) :
    BuiltFrom ph ingEx (refs ++ [(host, b)])
      (match m.get? (getNameForUpstream ingEx.Ingress host b.ServiceName) with
        | some _ => m
        | none => m.set (getNameForUpstream ingEx.Ingress host b.ServiceName)
            (createUpstream ph ingEx (getNameForUpstream ingEx.Ingress host b.ServiceName) b)) := by
  intro k
  rw [firstReference_append]
  have hk := h k
  have hn := h (getNameForUpstream ingEx.Ingress host b.ServiceName)
  by_cases hkn : getNameForUpstream ingEx.Ingress host b.ServiceName = k
  · subst hkn
    cases hg : m.get? (getNameForUpstream ingEx.Ingress host b.ServiceName) with
    | none =>
      rw [hg] at hn
      simp only
      rw [GoMap.get?_set_self]
      cases hf : firstReference ingEx.Ingress refs
          (getNameForUpstream ingEx.Ingress host b.ServiceName) with
      | none => simp [firstReference]
      | some b₀ => rw [hf] at hn; simp at hn
    | some u =>
      rw [hg] at hn
      simp only
      rw [hg]
      cases hf : firstReference ingEx.Ingress refs
          (getNameForUpstream ingEx.Ingress host b.ServiceName) with
      | none => rw [hf] at hn; simp at hn
      | some b₀ => rw [hf] at hn; simpa using hn
  · have hsingle : firstReference ingEx.Ingress [(host, b)] k = none := by
      simp [firstReference, hkn]
    rw [hsingle, Option.or_none]
    cases hg : m.get? (getNameForUpstream ingEx.Ingress host b.ServiceName) with
    | none =>
      simp only
      rw [GoMap.get?_set_ne _ _ _ _ hkn]
      exact hk
    | some u => exact hk

theorem pathLoop_builtFrom (ingCfg : Config) (host : String) (paths : List HTTPIngressPath)
    (refs : List (String × IngressBackend)) (st : PathLoop)
    (h : BuiltFrom ph ingEx refs st.upstreams) :
    BuiltFrom ph ingEx (refs ++ paths.map (fun path => (host, path.Backend)))
      (paths.foldl (pathStep ph ingEx ingCfg host) st).upstreams := by
  induction paths generalizing refs st with
  | nil => simpa using h
  | cons path rest ih =>
    have hstep : BuiltFrom ph ingEx (refs ++ [(host, path.Backend)])
        (pathStep ph ingEx ingCfg host st path).upstreams :=
      builtFrom_step ph ingEx refs st.upstreams host path.Backend h
    have := ih (refs ++ [(host, path.Backend)]) _ hstep
    simpa [List.append_assoc] using this

theorem ruleLoop_builtFrom (pems : GoMap String) (ingCfg : Config) (rules : List IngressRule)
    (refs : List (String × IngressBackend)) (st : RuleLoop)
    (h : BuiltFrom ph ingEx refs st.upstreams) :
    BuiltFrom ph ingEx
      (refs ++ (rulesWithPaths rules).flatMap
        (fun r => r.2.map (fun path => (r.1, path.Backend))))
      (rules.foldl (ruleStep ph ingEx pems ingCfg) st).upstreams := by
  induction rules generalizing refs st with
  | nil => simpa [rulesWithPaths] using h
  | cons rule rest ih =>
    simp only [List.foldl_cons]
    cases hh : rule.HTTP with
    | none =>
      rw [ruleStep_none ph ingEx pems ingCfg st rule hh]
      have := ih refs st h
      simpa [rulesWithPaths, List.filterMap_cons, hh] using this
    | some http =>
      have hstep := pathLoop_builtFrom ph ingEx ingCfg rule.Host http.Paths refs
        { upstreams := st.upstreams, locations := [], rootLocation := false } h
      rw [← ruleStep_upstreams ph ingEx pems ingCfg st rule http hh] at hstep
      have := ih _ _ hstep
      simpa [rulesWithPaths, List.filterMap_cons, hh, List.append_assoc] using this

theorem initialUpstreams_builtFrom :
    BuiltFrom ph ingEx (references ingEx.Ingress.Spec.Backend []) (initialUpstreams ph ingEx) := by
  unfold initialUpstreams references
  cases hb : ingEx.Ingress.Spec.Backend with
  | none => intro k; simp [rulesWithPaths, firstReference, GoMap.get?]
  | some backend =>
    have h0 : BuiltFrom ph ingEx [] ([] : GoMap Upstream) := by
      intro k; simp [firstReference, GoMap.get?]
    have := builtFrom_step ph ingEx [] [] emptyHost backend h0
    simpa [rulesWithPaths, GoMap.get?] using this

theorem references_eq (backend : Option IngressBackend) (rules : List IngressRule) :
    references backend rules =
      references backend [] ++ (rulesWithPaths rules).flatMap
        (fun r => r.2.map (fun path => (r.1, path.Backend))) := by
  simp [references, rulesWithPaths]

theorem rulesLoop_builtFrom (config : Config) (pems : GoMap String) :
    BuiltFrom ph ingEx (references ingEx.Ingress.Spec.Backend ingEx.Ingress.Spec.Rules)
      (rulesLoop config ph ingEx pems).upstreams := by
  rw [references_eq]
  exact ruleLoop_builtFrom ph ingEx pems (createConfig config ingEx) ingEx.Ingress.Spec.Rules
    _ { upstreams := initialUpstreams ph ingEx, servers := [] }
    (initialUpstreams_builtFrom ph ingEx)

end FirstReference

/-! ## The target port of a later reference is not read -/

theorem find?_congr_mem {α : Type} (l : List α) (p q : α → Bool)
    (h : ∀ x ∈ l, p x = q x) : l.find? p = l.find? q := by
  induction l with
  | nil => rfl
  | cons x rest ih =>
    have hx := h x (List.mem_cons_self _ _)
    have hrest := ih (fun y hy => h y (List.mem_cons_of_mem _ hy))
    simp only [List.find?_cons, hx, hrest]

theorem rulesWithPaths_append (a b : List IngressRule) :
    rulesWithPaths (a ++ b) = rulesWithPaths a ++ rulesWithPaths b := by
  simp [rulesWithPaths, List.filterMap_append]

theorem rulesWithPaths_ruleOf (host : String) (paths : List HTTPIngressPath)
    (rest : List IngressRule) :
    rulesWithPaths (ruleOf host paths :: rest) = (host, paths) :: rulesWithPaths rest := by
  simp [rulesWithPaths, ruleOf, List.filterMap_cons]

theorem rulesWithPaths_nil : rulesWithPaths [] = [] := rfl

theorem references_split (backend : Option IngressBackend) (rpre rpost : List IngressRule)
    (host : String) (ppre rest : List HTTPIngressPath) :
    references backend (rpre ++ ruleOf host (ppre ++ rest) :: rpost) =
      references backend (rpre ++ [ruleOf host ppre]) ++
        (rest.map (fun path => (host, path.Backend)) ++
          (rulesWithPaths rpost).flatMap
            (fun r => r.2.map (fun path => (r.1, path.Backend)))) := by
  simp only [references, rulesWithPaths_append, rulesWithPaths_ruleOf, rulesWithPaths_nil]
  simp [List.flatMap_append, List.append_assoc]

theorem references_before (backend : Option IngressBackend) (rpre : List IngressRule)
    (host : String) (ppre : List HTTPIngressPath) :
    references backend (rpre ++ [ruleOf host ppre]) =
      references backend rpre ++ ppre.map (fun path => (host, path.Backend)) := by
  simp only [references, rulesWithPaths_append, rulesWithPaths_ruleOf, rulesWithPaths_nil]
  simp [List.flatMap_append, List.append_assoc]

section PortIrrelevant
variable (ph : UpstreamServer) (ingEx : IngressEx) (pems : GoMap String) (ingCfg : Config)

theorem pathStep_withPort (host : String) (st : PathLoop) (path : HTTPIngressPath)
    (port : IntOrString) (u : Upstream)
    (h : st.upstreams.get?
      (getNameForUpstream ingEx.Ingress host path.Backend.ServiceName) = some u) :
    pathStep ph ingEx ingCfg host st (withPort path port) =
      pathStep ph ingEx ingCfg host st path := by
  simp only [pathStep, withPort, h]

theorem pathLoop_withPort (host : String) (ppre ppost : List HTTPIngressPath)
    (later : HTTPIngressPath) (port : IntOrString) (refs : List (String × IngressBackend))
    (st : PathLoop) (hst : BuiltFrom ph ingEx refs st.upstreams) (b₀ : IngressBackend)
    (h : firstReference ingEx.Ingress (refs ++ ppre.map (fun path => (host, path.Backend)))
      (getNameForUpstream ingEx.Ingress host later.Backend.ServiceName) = some b₀) :
    (ppre ++ withPort later port :: ppost).foldl (pathStep ph ingEx ingCfg host) st =
      (ppre ++ later :: ppost).foldl (pathStep ph ingEx ingCfg host) st := by
  have hb := pathLoop_builtFrom ph ingEx ingCfg host ppre refs st hst
    (getNameForUpstream ingEx.Ingress host later.Backend.ServiceName)
  rw [h] at hb
  simp only [List.foldl_append, List.foldl_cons]
  rw [pathStep_withPort ph ingEx ingCfg host _ later port _ hb]

theorem ruleStep_withPort (host : String) (ppre ppost : List HTTPIngressPath)
    (later : HTTPIngressPath) (port : IntOrString) (refs : List (String × IngressBackend))
    (st : RuleLoop) (hst : BuiltFrom ph ingEx refs st.upstreams) (b₀ : IngressBackend)
    (h : firstReference ingEx.Ingress (refs ++ ppre.map (fun path => (host, path.Backend)))
      (getNameForUpstream ingEx.Ingress host later.Backend.ServiceName) = some b₀) :
    ruleStep ph ingEx pems ingCfg st (ruleOf host (ppre ++ withPort later port :: ppost)) =
      ruleStep ph ingEx pems ingCfg st (ruleOf host (ppre ++ later :: ppost)) := by
  have hl := pathLoop_withPort ph ingEx ingCfg host ppre ppost later port refs
    { upstreams := st.upstreams, locations := [], rootLocation := false } hst b₀ h
  simp only [ruleStep, ruleOf, hl]

theorem ruleLoop_withPort (rpre rpost : List IngressRule) (host : String)
    (ppre ppost : List HTTPIngressPath) (later : HTTPIngressPath) (port : IntOrString)
    (b₀ : IngressBackend)
    (h : firstReference ingEx.Ingress
      (references ingEx.Ingress.Spec.Backend (rpre ++ [ruleOf host ppre]))
      (getNameForUpstream ingEx.Ingress host later.Backend.ServiceName) = some b₀) :
    (rpre ++ ruleOf host (ppre ++ withPort later port :: ppost) :: rpost).foldl
        (ruleStep ph ingEx pems ingCfg)
        { upstreams := initialUpstreams ph ingEx, servers := [] } =
      (rpre ++ ruleOf host (ppre ++ later :: ppost) :: rpost).foldl
        (ruleStep ph ingEx pems ingCfg)
        { upstreams := initialUpstreams ph ingEx, servers := [] } := by
  have hb := ruleLoop_builtFrom ph ingEx pems ingCfg rpre _
    { upstreams := initialUpstreams ph ingEx, servers := [] }
    (initialUpstreams_builtFrom ph ingEx)
  rw [← references_eq] at hb
  rw [references_before] at h
  simp only [List.foldl_append, List.foldl_cons]
  rw [ruleStep_withPort ph ingEx pems ingCfg host ppre ppost later port _ _ hb b₀ h]

end PortIrrelevant

theorem generateNginxCfg_of_rules (config : Config) (ph : UpstreamServer) (ingEx : IngressEx)
    (pems : GoMap String) (h : ingEx.Ingress.Spec.Rules ≠ []) :
    generateNginxCfg config ph ingEx pems =
      { Upstreams := upstreamMapToSlice (rulesLoop config ph ingEx pems).upstreams
        Servers := (rulesLoop config ph ingEx pems).servers } := by
  have hlen : ¬ ingEx.Ingress.Spec.Rules.length = 0 := by
    simpa [List.length_eq_zero] using h
  unfold generateNginxCfg
  cases ingEx.Ingress.Spec.Backend <;> simp [hlen]

theorem rulesLoop_withRules (config : Config) (ph : UpstreamServer) (ingEx : IngressEx)
    (pems : GoMap String) (rules : List IngressRule) :
    rulesLoop config ph (withRules ingEx rules) pems =
      rules.foldl (ruleStep ph ingEx pems (createConfig config ingEx))
        { upstreams := initialUpstreams ph ingEx, servers := [] } := rfl

theorem generateNginxCfg_withPort (config : Config) (ph : UpstreamServer) (ingEx : IngressEx)
    (pems : GoMap String) (rpre rpost : List IngressRule) (host : String)
    (ppre ppost : List HTTPIngressPath) (later : HTTPIngressPath) (port : IntOrString)
    (b₀ : IngressBackend)
    (hrules : ingEx.Ingress.Spec.Rules = rpre ++ ruleOf host (ppre ++ later :: ppost) :: rpost)
    (h : firstReference ingEx.Ingress
      (references ingEx.Ingress.Spec.Backend (rpre ++ [ruleOf host ppre]))
      (getNameForUpstream ingEx.Ingress host later.Backend.ServiceName) = some b₀) :
    generateNginxCfg config ph
        (withRules ingEx (rpre ++ ruleOf host (ppre ++ withPort later port :: ppost) :: rpost))
        pems =
      generateNginxCfg config ph ingEx pems := by
  have hne : ingEx.Ingress.Spec.Rules ≠ [] := by rw [hrules]; simp
  have hne' : (withRules ingEx
      (rpre ++ ruleOf host (ppre ++ withPort later port :: ppost) :: rpost)).Ingress.Spec.Rules
      ≠ [] := by simp [withRules]
  rw [generateNginxCfg_of_rules config ph ingEx pems hne,
    generateNginxCfg_of_rules config ph _ pems hne', rulesLoop_withRules,
    ruleLoop_withPort ph ingEx pems (createConfig config ingEx) rpre rpost host ppre ppost
      later port b₀ h]
  have : rulesLoop config ph ingEx pems =
      (rpre ++ ruleOf host (ppre ++ later :: ppost) :: rpost).foldl
        (ruleStep ph ingEx pems (createConfig config ingEx))
        { upstreams := initialUpstreams ph ingEx, servers := [] } := by
    unfold rulesLoop; rw [hrules]
  rw [this]

/-! ## The Location of a path and the first reference of its group -/

theorem getElem?_append_cons_length {α : Type} (l r : List α) (a : α) :
    (l ++ a :: r)[l.length]? = some a := by
  induction l with
  | nil => simp
  | cons x rest ih => simpa using ih

theorem generateNginxCfg_location_at (config : Config) (ph : UpstreamServer)
    (ingEx : IngressEx) (pems : GoMap String) (i j : Nat) (host : String)
    (paths : List HTTPIngressPath) (path : HTTPIngressPath) (b₀ : IngressBackend)
    (hi : (rulesWithPaths ingEx.Ingress.Spec.Rules)[i]? = some (host, paths))
    (hj : paths[j]? = some path)
    (hb : firstReference ingEx.Ingress
      (references ingEx.Ingress.Spec.Backend ingEx.Ingress.Spec.Rules)
      (getNameForUpstream ingEx.Ingress host path.Backend.ServiceName) = some b₀) :
    ∃ srv loc, (generateNginxCfg config ph ingEx pems).Servers[i]? = some srv ∧
      srv.Locations[j]? = some loc ∧
      loc.Path = pathOrDefault path.Path ∧
      loc.Upstream = createUpstream ph ingEx
        (getNameForUpstream ingEx.Ingress host path.Backend.ServiceName) b₀ := by
  have hm := rulesLoop_builtFrom ph ingEx config pems
    (getNameForUpstream ingEx.Ingress host path.Backend.ServiceName)
  rw [hb] at hm
  have hjlt : j < paths.length := (List.getElem?_eq_some_iff.1 hj).1
  refine ⟨_, createLocation (pathOrDefault path.Path)
    (createUpstream ph ingEx
      (getNameForUpstream ingEx.Ingress host path.Backend.ServiceName) b₀)
    (createConfig config ingEx),
    generateNginxCfg_server_at config ph ingEx pems i (host, paths) hi, ?_, rfl, rfl⟩
  rw [serverFrom_locations]
  unfold locationsFrom
  rw [List.getElem?_append_left (by simpa using hjlt), List.getElem?_map, hj]
  simp only [Option.map_some', hm, Option.map_some', Option.getD_some]

/-! ## The servers of the rules, in the terms of the code -/

/-- The server at the position of a rule with a path list, in the terms of
`pathOrDefault` and `hasRootPath`. -/
theorem rule_server_fallback (config : Config) (ph : UpstreamServer)
    (ingEx : IngressEx) (pems : GoMap String) (i : Nat) (host : String)
    (paths : List HTTPIngressPath)
    (hi : (rulesWithPaths ingEx.Ingress.Spec.Rules)[i]? = some (host, paths)) :
    ∃ srv, (generateNginxCfg config ph ingEx pems).Servers[i]? = some srv ∧
      srv.Name = host ∧
      (∀ backend, ingEx.Ingress.Spec.Backend = some backend → hasRootPath paths = false →
        srv.Locations.length = paths.length + 1 ∧
        srv.Locations.dropLast.map (fun loc => loc.Path) =
          paths.map (fun path => pathOrDefault path.Path) ∧
        srv.Locations.getLast? =
          some (createLocation "/" (defaultUpstream ph ingEx backend)
            (createConfig config ingEx)) ∧
        srv.Locations.countP (fun loc => decide (loc.Path = "/")) = 1) ∧
      ((hasRootPath paths = true ∨ ingEx.Ingress.Spec.Backend = none) →
        srv.Locations.map (fun loc => loc.Path) =
          paths.map (fun path => pathOrDefault path.Path)) := by
  refine ⟨_, generateNginxCfg_server_at config ph ingEx pems i (host, paths) hi,
    serverFrom_name ingEx pems _ _ _, ?_, ?_⟩
  · intro backend hb hroot
    have hd := rulesLoop_default config ph ingEx pems backend hb
    have hl : (serverFrom (rulesLoop config ph ingEx pems).upstreams ingEx pems
        (createConfig config ingEx) (host, paths)).Locations =
        paths.map (fun path =>
          createLocation (pathOrDefault path.Path)
            (((rulesLoop config ph ingEx pems).upstreams.get?
              (getNameForUpstream ingEx.Ingress host path.Backend.ServiceName)).getD
              Upstream.zero) (createConfig config ingEx)) ++
          [createLocation "/" (defaultUpstream ph ingEx backend) (createConfig config ingEx)] := by
      rw [serverFrom_locations]
      unfold locationsFrom
      simp only [hb, hroot, hd, Option.getD_some]
      rfl
    rw [hl]
    refine ⟨by simp, ?_, by simp, ?_⟩
    · rw [List.dropLast_concat, List.map_map]
      rfl
    · rw [List.countP_append, countP_root_paths ingEx _ _ _ _ hroot]
      simp [createLocation]
  · intro h
    rw [serverFrom_locations, locationsFrom_paths]
    rcases h with h | h
    · cases ingEx.Ingress.Spec.Backend <;> simp [h]
    · simp [h]

/-- The Locations of the servers of the rules, in the terms of `pathOrDefault`
and `synthesizedCount`. -/
theorem rule_server_locations (config : Config) (ph : UpstreamServer)
    (ingEx : IngressEx) (pems : GoMap String) :
    (∀ (i : Nat) (host : String) (paths : List HTTPIngressPath),
      (rulesWithPaths ingEx.Ingress.Spec.Rules)[i]? = some (host, paths) →
      ∃ srv : Server, (generateNginxCfg config ph ingEx pems).Servers[i]? = some srv ∧
        (srv.Locations.map (fun loc => loc.Path) =
            paths.map (fun path => pathOrDefault path.Path) ∨
          srv.Locations.map (fun loc => loc.Path) =
            paths.map (fun path => pathOrDefault path.Path) ++ ["/"]) ∧
        ∀ (j : Nat) (path : HTTPIngressPath), paths[j]? = some path →
          ∃ loc : Location, srv.Locations[j]? = some loc ∧
            loc.Path = pathOrDefault path.Path ∧
            loc.Upstream.Name =
              getNameForUpstream ingEx.Ingress host path.Backend.ServiceName ∧
            loc.Upstream ∈ (generateNginxCfg config ph ingEx pems).Upstreams) ∧
    ((generateNginxCfg config ph ingEx pems).Servers.map
        (fun srv => srv.Locations.length)).sum =
      ((rulesWithPaths ingEx.Ingress.Spec.Rules).map (fun r => r.2.length)).sum +
        synthesizedCount ingEx.Ingress := by
  refine ⟨?_, generateNginxCfg_locations_sum config ph ingEx pems⟩
  intro i host paths hi
  refine ⟨_, generateNginxCfg_server_at config ph ingEx pems i (host, paths) hi, ?_, ?_⟩
  · rw [serverFrom_locations, locationsFrom_paths]
    cases ingEx.Ingress.Spec.Backend with
    | none => left; simp
    | some backend =>
      by_cases hr : hasRootPath paths = true
      · left; simp [hr]
      · right; simp [hr]
  · intro j path hj
    have hr : (host, paths) ∈ rulesWithPaths ingEx.Ingress.Spec.Rules :=
      List.getElem?_mem hi
    have hp : path ∈ paths := List.getElem?_mem hj
    obtain ⟨u, hu, hname⟩ := rulesLoop_defined config ph ingEx pems (host, paths) hr path hp
    have hjlt : j < paths.length := by
      rcases List.getElem?_eq_some_iff.1 hj with ⟨hlt, _⟩
      exact hlt
    refine ⟨createLocation (pathOrDefault path.Path) u (createConfig config ingEx), ?_, rfl,
      hname, ?_⟩
    · rw [serverFrom_locations]
      unfold locationsFrom
      rw [List.getElem?_append_left (by simpa using hjlt), List.getElem?_map, hj]
      simp only [Option.map_some', hu, Option.getD_some]
    · rw [generateNginxCfg_upstreams]
      exact GoMap.mem_values_of_get? _ _ _ hu

/-! ## The root test and the defaulted path, spelled out -/

theorem pathOrDefault_eq (path : String) :
    pathOrDefault path = if path = "" then "/" else path := rfl

theorem pathOrDefault_eq_root_iff (path : String) :
    pathOrDefault path = "/" ↔ path = "/" ∨ path = "" := by
  unfold pathOrDefault
  by_cases h : path = ""
  · simp [h]
  · simp [h]

theorem pathOrDefault_of_ne (path : String) (h : path ≠ "") : pathOrDefault path = path := by
  unfold pathOrDefault
  simp [h]

theorem hasRootPath_eq_false_iff (paths : List HTTPIngressPath) :
    hasRootPath paths = false ↔ ∀ path ∈ paths, path.Path ≠ "/" ∧ path.Path ≠ "" := by
  unfold hasRootPath
  rw [List.any_eq_false]
  constructor
  · intro h path hp
    have := h path hp
    simp only [decide_eq_true_eq, pathOrDefault_eq_root_iff, not_or] at this
    exact this
  · intro h path hp
    have := h path hp
    simp only [decide_eq_true_eq, pathOrDefault_eq_root_iff, not_or]
    exact this

theorem hasRootPath_eq_true_iff (paths : List HTTPIngressPath) :
    hasRootPath paths = true ↔ ∃ path ∈ paths, path.Path = "/" ∨ path.Path = "" := by
  unfold hasRootPath
  rw [List.any_eq_true]
  constructor
  · rintro ⟨path, hp, h⟩
    exact ⟨path, hp, (pathOrDefault_eq_root_iff _).1 (by simpa using h)⟩
  · rintro ⟨path, hp, h⟩
    exact ⟨path, hp, by simpa using (pathOrDefault_eq_root_iff _).2 h⟩

theorem map_pathOrDefault_of_no_root (paths : List HTTPIngressPath)
    (h : ∀ path ∈ paths, path.Path ≠ "/" ∧ path.Path ≠ "") :
    paths.map (fun path => pathOrDefault path.Path) = paths.map (fun path => path.Path) := by
  apply List.map_congr_left
  intro path hp
  exact pathOrDefault_of_ne _ (h path hp).2

theorem synthesizedCount_eq (ing : Ingress) :
    synthesizedCount ing =
      match ing.Spec.Backend with
      | some _ =>
        ((rulesWithPaths ing.Spec.Rules).filter (fun r =>
          r.2.all (fun path => decide (path.Path ≠ "/" ∧ path.Path ≠ "")))).length +
          (if ing.Spec.Rules.length = 0 then 1 else 0)
      | none => 0 := by
  unfold synthesizedCount
  cases ing.Spec.Backend with
  | none => rfl
  | some backend =>
    simp only
    congr 2
    apply List.filter_congr
    intro r _
    cases hr : hasRootPath r.2 with
    | false =>
      have := (hasRootPath_eq_false_iff r.2).1 hr
      simp only [Bool.not_false]
      symm
      rw [List.all_eq_true]
      intro path hp
      simpa using this path hp
    | true =>
      obtain ⟨path, hp, h⟩ := (hasRootPath_eq_true_iff r.2).1 hr
      simp only [Bool.not_true]
      symm
      rw [List.all_eq_false]
      refine ⟨path, hp, ?_⟩
      rcases h with h | h <;> simp [h]

/-! ## The baseline in memory -/

theorem ConfigHeap.read_append_of_read (heap : ConfigHeap) (c x : Config) (p : Nat)
    (h : heap.read p = some c) : ConfigHeap.read (heap ++ [x]) p = some c := by
  unfold ConfigHeap.read at h ⊢
  have hlt : p < heap.length := (List.getElem?_eq_some_iff.1 h).1
  rw [List.getElem?_append_left hlt]
  exact h

theorem ConfigHeap.read_append_length (heap : ConfigHeap) (x : Config) :
    ConfigHeap.read (heap ++ [x]) heap.length = some x := by
  unfold ConfigHeap.read
  simp

theorem ConfigHeap.update_append_length (heap : ConfigHeap) (x : Config)
    (f : Config → Config) :
    ConfigHeap.update (heap ++ [x]) heap.length f = heap ++ [f x] := by
  unfold ConfigHeap.update
  simp

theorem createConfigRef_eq (heap : ConfigHeap) (config : Nat) (ingEx : IngressEx)
    (baseline : Config) (h : heap.read config = some baseline) :
    createConfigRef heap config ingEx =
      some (createConfig baseline ingEx, heap ++ [createConfig baseline ingEx]) := by
  simp only [createConfigRef, h, ConfigHeap.alloc, createConfig]
  cases ingEx.Ingress.Annotations.get? "nginx.org/proxy-connect-timeout" <;>
    cases ingEx.Ingress.Annotations.get? "nginx.org/proxy-read-timeout" <;>
    cases ingEx.Ingress.Annotations.get? "nginx.org/client-max-body-size" <;>
    simp only [ConfigHeap.update_append_length, ConfigHeap.read_append_length]

theorem generateNginxCfg_eq_from (config : Config) (ph : UpstreamServer) (ingEx : IngressEx)
    (pems : GoMap String) :
    generateNginxCfg config ph ingEx pems =
      generateNginxCfgFrom (createConfig config ingEx) ph ingEx pems := rfl

/-! # The claims -/

/-- C1: the group `createUpstream` returns never has an empty server list.  When
the service has no endpoint entry, or `endpointsToUpstreamServers` returns no
server for it, the servers are those of `NewUpstreamWithDefaultServer`, the
single placeholder; otherwise they are the list `endpointsToUpstreamServers`
returns. -/
theorem createUpstream_servers (ph : UpstreamServer) (ingEx : IngressEx) (name : String)
    (backend : IngressBackend) :
    (createUpstream ph ingEx name backend).UpstreamServers ≠ [] ∧
    (NewUpstreamWithDefaultServer ph name).UpstreamServers = [ph] ∧
    ((ingEx.Endpoints.get? backend.ServiceName = none ∨
        ∃ endps, ingEx.Endpoints.get? backend.ServiceName = some endps ∧
          endpointsToUpstreamServers endps backend.ServicePort.IntValue = []) →
      (createUpstream ph ingEx name backend).UpstreamServers =
        (NewUpstreamWithDefaultServer ph name).UpstreamServers) ∧
    (∀ endps, ingEx.Endpoints.get? backend.ServiceName = some endps →
      endpointsToUpstreamServers endps backend.ServicePort.IntValue ≠ [] →
      (createUpstream ph ingEx name backend).UpstreamServers =
        endpointsToUpstreamServers endps backend.ServicePort.IntValue) := by
  unfold createUpstream
  cases hget : ingEx.Endpoints.get? backend.ServiceName with
  | none => simp [NewUpstreamWithDefaultServer]
  | some endps =>
    by_cases hl : endpointsToUpstreamServers endps backend.ServicePort.IntValue = []
    · simp [NewUpstreamWithDefaultServer, hl]
    · have hpos : (endpointsToUpstreamServers endps backend.ServicePort.IntValue).length > 0 :=
        List.length_pos.2 hl
      simp [NewUpstreamWithDefaultServer, hl, hpos]

/-- C2: in the configuration `generateNginxCfg` returns, the group bound to
every Location of every server, the synthesized fallbacks and the host-less
server included, is an element of the `Upstreams` of that configuration. -/
theorem generateNginxCfg_location_upstream_mem (config : Config) (ph : UpstreamServer)
    (ingEx : IngressEx) (pems : GoMap String) (srv : Server) (loc : Location)
    (hsrv : srv ∈ (generateNginxCfg config ph ingEx pems).Servers)
    (hloc : loc ∈ srv.Locations) :
    loc.Upstream ∈ (generateNginxCfg config ph ingEx pems).Upstreams := by
  rw [generateNginxCfg_upstreams]
  rw [generateNginxCfg_servers] at hsrv
  rcases List.mem_append.1 hsrv with hsrv | hsrv
  · obtain ⟨r, hr, rfl⟩ := List.mem_map.1 hsrv
    have hloc' : loc ∈ locationsFrom (rulesLoop config ph ingEx pems).upstreams ingEx
        (createConfig config ingEx) r.1 r.2 := hloc
    rcases mem_locationsFrom ingEx _ _ _ _ _ hloc' with ⟨path, hp, rfl⟩ | ⟨backend, hb, _, rfl⟩
    · obtain ⟨u, hu, _⟩ := rulesLoop_defined config ph ingEx pems r hr path hp
      simp only [createLocation, hu, Option.getD_some]
      exact GoMap.mem_values_of_get? _ _ _ hu
    · have hu := rulesLoop_default config ph ingEx pems backend hb
      simp only [createLocation, hu, Option.getD_some]
      exact GoMap.mem_values_of_get? _ _ _ hu
  · cases hb : ingEx.Ingress.Spec.Backend with
    | none => rw [hb] at hsrv; simp at hsrv
    | some backend =>
      rw [hb] at hsrv
      by_cases hlen : ingEx.Ingress.Spec.Rules.length = 0
      · simp only [hlen, if_true, List.mem_singleton] at hsrv
        subst hsrv
        rw [hostlessServer_locations, List.mem_singleton] at hloc
        subst hloc
        exact GoMap.mem_values_of_get? _ _ _ (rulesLoop_default config ph ingEx pems backend hb)
      · simp [hlen] at hsrv

/-- C2 at the snapshot `bare`: the root Location of the host-less server is bound
to a group of the configuration. -/
theorem generateNginxCfg_location_upstream_mem_witness :
    hostlessServer samplePlaceholder bare [] sampleConfig webBackend ∈
      (generateNginxCfg sampleConfig samplePlaceholder bare []).Servers ∧
    createLocation "/" bareUpstream sampleConfig ∈
      (hostlessServer samplePlaceholder bare [] sampleConfig webBackend).Locations ∧
    bareUpstream ∈ (generateNginxCfg sampleConfig samplePlaceholder bare []).Upstreams :=
  ⟨by decide, by decide,
    generateNginxCfg_location_upstream_mem sampleConfig samplePlaceholder bare []
      (hostlessServer samplePlaceholder bare [] sampleConfig webBackend)
      (createLocation "/" bareUpstream sampleConfig) (by decide) (by decide)⟩

/-- C3: the server `generateNginxCfg` builds for a host rule with a path list
sits at the position of that rule among the rules with a path list.  When a
default backend is declared and no path of the rule is `/` or empty, its
Locations are one per path, with the paths of the rule, followed by one more;
this last Location has path `/` and is bound to the group built for the default
backend, and it is the only Location with path `/`.  When some path of the rule
is `/` or empty, or no default backend is declared, the Location paths are the
paths of the rule with `/` for every empty one, and no Location is synthesized. -/
theorem generateNginxCfg_fallback_location (config : Config) (ph : UpstreamServer)
    (ingEx : IngressEx) (pems : GoMap String) (i : Nat) (host : String)
    (paths : List HTTPIngressPath)
    (hi : (rulesWithPaths ingEx.Ingress.Spec.Rules)[i]? = some (host, paths)) :
    ∃ srv, (generateNginxCfg config ph ingEx pems).Servers[i]? = some srv ∧
      srv.Name = host ∧
      (∀ backend, ingEx.Ingress.Spec.Backend = some backend →
        (∀ path ∈ paths, path.Path ≠ "/" ∧ path.Path ≠ "") →
        srv.Locations.length = paths.length + 1 ∧
        srv.Locations.dropLast.map (fun loc => loc.Path) = paths.map (fun path => path.Path) ∧
        (∃ loc, srv.Locations.getLast? = some loc ∧ loc.Path = "/" ∧
          loc.Upstream = defaultUpstream ph ingEx backend) ∧
        srv.Locations.countP (fun loc => decide (loc.Path = "/")) = 1) ∧
      (((∃ path ∈ paths, path.Path = "/" ∨ path.Path = "") ∨
          ingEx.Ingress.Spec.Backend = none) →
        srv.Locations.map (fun loc => loc.Path) =
          paths.map (fun path => if path.Path = "" then "/" else path.Path)) := by
  obtain ⟨srv, hsrv, hname, hfall, hnone⟩ :=
    rule_server_fallback config ph ingEx pems i host paths hi
  refine ⟨srv, hsrv, hname, ?_, ?_⟩
  · intro backend hb hno
    obtain ⟨hlen, hdrop, hlast, hcount⟩ :=
      hfall backend hb ((hasRootPath_eq_false_iff paths).2 hno)
    refine ⟨hlen, ?_, ⟨_, hlast, rfl, rfl⟩, hcount⟩
    rw [hdrop]
    exact map_pathOrDefault_of_no_root paths hno
  · intro h
    have := hnone (h.imp_left (hasRootPath_eq_true_iff paths).2)
    rw [this]
    rfl

/-- C3 at the snapshots `cafe` and `mixed`: the rule of `cafe` has no root path
and gets the fallback; the rule `b.example.com` of `mixed` has an empty path,
which becomes the Location `/`, and gets no fallback. -/
theorem generateNginxCfg_fallback_location_witness :
    ((rulesWithPaths cafe.Ingress.Spec.Rules)[0]? = some ("cafe.example.com", cafePaths) ∧
      (generateNginxCfg sampleConfig samplePlaceholder cafe []).Servers.map
          (fun srv => srv.Locations.map (fun loc => (loc.Path, loc.Upstream.Name))) =
        [[("/coffee", "default-cafe-cafe.example.com-coffee-svc"),
          ("/tea", "default-cafe-cafe.example.com-tea-svc"),
          ("/", "default-cafe--tea-svc")]]) ∧
    ((rulesWithPaths mixed.Ingress.Spec.Rules)[1]? =
        some ("b.example.com", [{ Path := "", Backend := webBackend }]) ∧
      (generateNginxCfg sampleConfig samplePlaceholder mixed []).Servers.map
          (fun srv => srv.Locations.map (fun loc => (loc.Path, loc.Upstream.Name))) =
        [[("/x", "default-mixed--x-svc"), ("/", "default-mixed--web")],
         [("/", "default-mixed-b.example.com-web")]]) ∧
    (∃ srv, (generateNginxCfg sampleConfig samplePlaceholder mixed []).Servers[1]? = some srv ∧
      srv.Name = "b.example.com" ∧
      (∀ backend, mixed.Ingress.Spec.Backend = some backend →
        (∀ path ∈ [({ Path := "", Backend := webBackend } : HTTPIngressPath)],
          path.Path ≠ "/" ∧ path.Path ≠ "") →
        srv.Locations.length =
          [({ Path := "", Backend := webBackend } : HTTPIngressPath)].length + 1 ∧
        srv.Locations.dropLast.map (fun loc => loc.Path) =
          [({ Path := "", Backend := webBackend } : HTTPIngressPath)].map
            (fun path => path.Path) ∧
        (∃ loc, srv.Locations.getLast? = some loc ∧ loc.Path = "/" ∧
          loc.Upstream = defaultUpstream samplePlaceholder mixed backend) ∧
        srv.Locations.countP (fun loc => decide (loc.Path = "/")) = 1) ∧
      (((∃ path ∈ [({ Path := "", Backend := webBackend } : HTTPIngressPath)],
            path.Path = "/" ∨ path.Path = "") ∨
          mixed.Ingress.Spec.Backend = none) →
        srv.Locations.map (fun loc => loc.Path) =
          [({ Path := "", Backend := webBackend } : HTTPIngressPath)].map
            (fun path => if path.Path = "" then "/" else path.Path))) :=
  ⟨⟨by decide, by decide⟩, ⟨by decide, by decide⟩,
    generateNginxCfg_fallback_location sampleConfig samplePlaceholder mixed [] 1
      "b.example.com" [{ Path := "", Backend := webBackend }] (by decide)⟩

/-- C4, as stated, fails on the snapshot `cafe`: the configuration does not
hold exactly two groups, and the synthesized root Location is not bound to the
group of `tea-svc` under the host `cafe.example.com`. -/
theorem cafe_two_upstreams_fails :
    ¬ ((generateNginxCfg sampleConfig samplePlaceholder cafe []).Upstreams.length = 2 ∧
      (∀ u ∈ (generateNginxCfg sampleConfig samplePlaceholder cafe []).Upstreams,
        u.Name = getNameForUpstream cafeIngress "cafe.example.com" "coffee-svc" ∨
        u.Name = getNameForUpstream cafeIngress "cafe.example.com" "tea-svc") ∧
      (generateNginxCfg sampleConfig samplePlaceholder cafe []).Servers.map
          (fun srv => (srv.Name, srv.Locations.map (fun loc => (loc.Path, loc.Upstream.Name)))) =
        [("cafe.example.com",
          [("/coffee", getNameForUpstream cafeIngress "cafe.example.com" "coffee-svc"),
           ("/tea", getNameForUpstream cafeIngress "cafe.example.com" "tea-svc"),
           ("/", getNameForUpstream cafeIngress "cafe.example.com" "tea-svc")])]) := by
  decide

/-- C4, amended: for the resource `cafe`, whatever the endpoints, `generateNginxCfg`
returns three groups, named from `coffee-svc` and `tea-svc` under the host
`cafe.example.com` and from `tea-svc` under the empty host, and one server
`cafe.example.com` with the Locations `/coffee`, `/tea` and a synthesized `/`
that is bound to the group of `tea-svc` under the empty host. -/
theorem cafe_three_upstreams (config : Config) (ph : UpstreamServer) (secrets : GoMap Secret)
    (endpoints : GoMap Endpoints) (pems : GoMap String) :
    ((generateNginxCfg config ph
        { Ingress := cafeIngress, Secrets := secrets, Endpoints := endpoints } pems).Upstreams.map
          (fun u => u.Name)).Perm
      [getNameForUpstream cafeIngress "cafe.example.com" "coffee-svc",
       getNameForUpstream cafeIngress "cafe.example.com" "tea-svc",
       getNameForUpstream cafeIngress emptyHost "tea-svc"] ∧
    (generateNginxCfg config ph
        { Ingress := cafeIngress, Secrets := secrets, Endpoints := endpoints } pems).Servers.map
          (fun srv => (srv.Name, srv.Locations.map (fun loc => (loc.Path, loc.Upstream.Name)))) =
        [("cafe.example.com",
          [("/coffee", getNameForUpstream cafeIngress "cafe.example.com" "coffee-svc"),
           ("/tea", getNameForUpstream cafeIngress "cafe.example.com" "tea-svc"),
           ("/", getNameForUpstream cafeIngress emptyHost "tea-svc")])] := by
  simp [generateNginxCfg, rulesLoop, initialUpstreams, cafeIngress, cafePaths,
    ruleStep, pathStep, GoMap.set, GoMap.get?, getNameForUpstream, emptyHost,
    upstreamMapToSlice, createUpstream_name, createLocation, pathOrDefault, serverWithCert]
  refine ⟨by decide, ?_⟩
  cases pems.get? "cafe.example.com" <;> rfl

/-- C5, at the snapshot `shop`: the two rules reference two different pairs of
host and service, `getNameForUpstream` derives the same name from both, and the
configuration holds a single group; the Location of the host `shop`, whose
backend is `api-web`, is bound to the servers of `web`. -/
theorem shop_groups_collapse :
    (referencedBackends shop.Ingress).dedup.length = 2 ∧
    getNameForUpstream shop.Ingress "shop-api" "web" =
      getNameForUpstream shop.Ingress "shop" "api-web" ∧
    (generateNginxCfg sampleConfig samplePlaceholder shop []).Upstreams.length = 1 ∧
    (generateNginxCfg sampleConfig samplePlaceholder shop []).Servers.map
        (fun srv => (srv.Name, srv.Locations.map (fun loc => loc.Upstream.UpstreamServers))) =
      [("shop-api", [[{ Address := "10.0.0.1", Port := "80" }]]),
       ("shop", [[{ Address := "10.0.0.1", Port := "80" }]])] := by
  decide

/-- C6, as stated, fails on the snapshot `twice`: two rules with the same host
yield two servers with the same name. -/
theorem twice_same_server_name :
    ¬ ((generateNginxCfg sampleConfig samplePlaceholder twice []).Servers.map
        (fun srv => srv.Name)).Nodup := by
  decide

/-- C6, amended: the servers have pairwise distinct names exactly when the
host rules with a path list have pairwise distinct hosts. -/
theorem generateNginxCfg_server_names_nodup (config : Config) (ph : UpstreamServer)
    (ingEx : IngressEx) (pems : GoMap String) :
    ((generateNginxCfg config ph ingEx pems).Servers.map (fun srv => srv.Name)).Nodup ↔
      ((rulesWithPaths ingEx.Ingress.Spec.Rules).map (fun r => r.1)).Nodup := by
  by_cases h : ingEx.Ingress.Spec.Rules = []
  · have hr : rulesWithPaths ingEx.Ingress.Spec.Rules = [] := by rw [h]; rfl
    rw [hr]
    cases hb : ingEx.Ingress.Spec.Backend with
    | none => rw [generateNginxCfg_servers_nil config ph ingEx pems h hb]; simp
    | some backend =>
      rw [generateNginxCfg_servers_default config ph ingEx pems backend hb h]; simp
  · rw [generateNginxCfg_server_names config ph ingEx pems h]

/-- C7: the Location paths of the server built for a host rule with a path list
are the paths of the rule in declaration order, with `/` for every empty path,
followed by at most one synthesized `/`; the Location at the position of a path
is bound to a group of the configuration that carries the name derived from the
namespace, the resource name, the host of the rule and the service of the path;
and the Locations of all servers number the paths of all rules, plus, under a
default backend, one for every rule with a path list none of whose paths is `/`
or empty and one for the host-less server of a resource without rules. -/
theorem generateNginxCfg_locations_follow_paths (config : Config) (ph : UpstreamServer)
    (ingEx : IngressEx) (pems : GoMap String) :
    (∀ (i : Nat) (host : String) (paths : List HTTPIngressPath),
      (rulesWithPaths ingEx.Ingress.Spec.Rules)[i]? = some (host, paths) →
      ∃ srv : Server, (generateNginxCfg config ph ingEx pems).Servers[i]? = some srv ∧
        (srv.Locations.map (fun loc => loc.Path) =
            paths.map (fun path => if path.Path = "" then "/" else path.Path) ∨
          srv.Locations.map (fun loc => loc.Path) =
            paths.map (fun path => if path.Path = "" then "/" else path.Path) ++ ["/"]) ∧
        ∀ (j : Nat) (path : HTTPIngressPath), paths[j]? = some path →
          ∃ loc : Location, srv.Locations[j]? = some loc ∧
            loc.Path = (if path.Path = "" then "/" else path.Path) ∧
            loc.Upstream.Name =
              getNameForUpstream ingEx.Ingress host path.Backend.ServiceName ∧
            loc.Upstream ∈ (generateNginxCfg config ph ingEx pems).Upstreams) ∧
    ((generateNginxCfg config ph ingEx pems).Servers.map
        (fun srv => srv.Locations.length)).sum =
      ((rulesWithPaths ingEx.Ingress.Spec.Rules).map (fun r => r.2.length)).sum +
        (match ingEx.Ingress.Spec.Backend with
          | some _ =>
            ((rulesWithPaths ingEx.Ingress.Spec.Rules).filter (fun r =>
              r.2.all (fun path => decide (path.Path ≠ "/" ∧ path.Path ≠ "")))).length +
              (if ingEx.Ingress.Spec.Rules.length = 0 then 1 else 0)
          | none => 0) := by
  obtain ⟨hloc, hsum⟩ := rule_server_locations config ph ingEx pems
  refine ⟨?_, ?_⟩
  · intro i host paths hi
    obtain ⟨srv, hsrv, hpaths, hat⟩ := hloc i host paths hi
    exact ⟨srv, hsrv, hpaths, hat⟩
  · rw [hsum, synthesizedCount_eq]

/-- C8: for a resource with at least one host rule, the hosts of the servers
are, in order, the hosts of the rules that have a path list; a rule without a
path list yields no server, a rule with an empty host yields a server with an
empty name. -/
theorem generateNginxCfg_server_hosts (config : Config) (ph : UpstreamServer)
    (ingEx : IngressEx) (pems : GoMap String) (h : ingEx.Ingress.Spec.Rules ≠ []) :
    (generateNginxCfg config ph ingEx pems).Servers.map (fun srv => srv.Name) =
      (ingEx.Ingress.Spec.Rules.filter (fun rule => rule.HTTP.isSome)).map
        (fun rule => rule.Host) := by
  rw [generateNginxCfg_server_names config ph ingEx pems h]
  generalize ingEx.Ingress.Spec.Rules = rules
  induction rules with
  | nil => rfl
  | cons rule rest ih =>
    cases hh : rule.HTTP with
    | none => simpa [rulesWithPaths, List.filterMap_cons, List.filter_cons, hh] using ih
    | some http => simpa [rulesWithPaths, List.filterMap_cons, List.filter_cons, hh] using ih

/-- C8 at the snapshot `mixed`: the rule without a path list is skipped, the
rule with an empty host is kept. -/
theorem generateNginxCfg_server_hosts_witness :
    mixed.Ingress.Spec.Rules ≠ [] ∧
    (generateNginxCfg sampleConfig samplePlaceholder mixed []).Servers.map
        (fun srv => srv.Name) = ["", "b.example.com"] :=
  ⟨by decide,
    generateNginxCfg_server_hosts sampleConfig samplePlaceholder mixed [] (by decide)⟩

/-- C9: without host rules and with a default backend, `generateNginxCfg`
returns one server, with the empty host and one Location `/` bound to the group
of the default backend, with TLS enabled exactly when the certificate map has
an entry for the empty host.  Without host rules and without a default backend
it returns no server, and with host rules every server is the server of a rule
with a path list, so that none is synthesized. -/
theorem generateNginxCfg_hostless_server (config : Config) (ph : UpstreamServer)
    (ingEx : IngressEx) (pems : GoMap String) :
    (∀ backend, ingEx.Ingress.Spec.Rules = [] → ingEx.Ingress.Spec.Backend = some backend →
      ∃ srv, (generateNginxCfg config ph ingEx pems).Servers = [srv] ∧
        srv.Name = "" ∧
        srv.Locations = [createLocation "/" (defaultUpstream ph ingEx backend)
          (createConfig config ingEx)] ∧
        (srv.SSL = true ↔ ∃ pemFile, pems.get? "" = some pemFile)) ∧
    (ingEx.Ingress.Spec.Rules = [] → ingEx.Ingress.Spec.Backend = none →
      (generateNginxCfg config ph ingEx pems).Servers = []) ∧
    (ingEx.Ingress.Spec.Rules ≠ [] →
      (generateNginxCfg config ph ingEx pems).Servers.map (fun srv => srv.Name) =
        (rulesWithPaths ingEx.Ingress.Spec.Rules).map (fun r => r.1)) := by
  refine ⟨?_, generateNginxCfg_servers_nil config ph ingEx pems,
    generateNginxCfg_server_names config ph ingEx pems⟩
  intro backend h hb
  refine ⟨_, generateNginxCfg_servers_default config ph ingEx pems backend hb h, ?_, rfl, ?_⟩
  · simp only [hostlessServer, serverWithCert, emptyHost]
    cases pems.get? "" <;> rfl
  · simp only [hostlessServer, serverWithCert, emptyHost]
    cases pems.get? "" <;> simp

/-- C10, as stated, fails on the snapshot `renewal`: both declarations have a
complete secret and list the host `a.example.com`; the collaborator returned
`old.pem` when the first one was registered, and the map binds the host to
`new.pem`. -/
theorem renewal_first_reference_lost :
    certAndKey renewal oldTLS = some ("cert1", "key1") ∧
    "a.example.com" ∈ oldTLS.Hosts ∧
    (fileController.AddOrUpdateCertAndKey [] oldTLS.SecretName "cert1" "key1").1 = "old.pem" ∧
    (updateCertificates fileController [] renewal).pems.get? "a.example.com" =
      some "new.pem" ∧
    (updateCertificates fileController [] renewal).pems.get? "a.example.com" ≠
      some (fileController.AddOrUpdateCertAndKey [] oldTLS.SecretName "cert1" "key1").1 := by
  decide

/-- C10, amended: a TLS declaration whose secret is present with both fields is
registered in the state the collaborator has after the declarations before it,
and the map `updateCertificates` returns binds every host the declaration lists
to the file reference returned by that registration, provided that no later
declaration with such a secret lists the same host or, for the empty host,
lists no host at all. -/
theorem updateCertificates_host_reference {σ : Type} (ctl : NginxController σ) (nginx : σ)
    (ingEx : IngressEx) (pre post : List IngressTLS) (tls : IngressTLS)
    (cert key host : String)
    (hsplit : ingEx.Ingress.Spec.TLS = pre ++ tls :: post)
    (hvalid : certAndKey ingEx tls = some (cert, key))
    (hhost : host ∈ tls.Hosts)
    (hlater : ∀ later ∈ post, certAndKey ingEx later ≠ none →
      host ∉ later.Hosts ∧ ¬ (later.Hosts = [] ∧ host = emptyHost)) :
    (updateCertificates ctl nginx ingEx).pems.get? host =
      some (ctl.AddOrUpdateCertAndKey
        (pre.foldl (tlsStep ctl ingEx) { pems := [], nginx := nginx }).nginx
        tls.SecretName cert key).1 := by
  unfold updateCertificates
  rw [hsplit, List.foldl_append, List.foldl_cons,
    tlsLoop_get?_of_not_mem ctl ingEx post _ host hlater]
  exact tlsStep_get?_of_mem ctl ingEx _ tls cert key host hvalid hhost

/-- C10, amended, at the snapshot `renewal`, for its last declaration. -/
theorem updateCertificates_host_reference_witness :
    renewal.Ingress.Spec.TLS = [oldTLS] ++ newTLS :: [] ∧
    certAndKey renewal newTLS = some ("cert2", "key2") ∧
    "a.example.com" ∈ newTLS.Hosts ∧
    (updateCertificates fileController [] renewal).pems.get? "a.example.com" =
      some (fileController.AddOrUpdateCertAndKey
        ([oldTLS].foldl (tlsStep fileController renewal) { pems := [], nginx := [] }).nginx
        newTLS.SecretName "cert2" "key2").1 :=
  ⟨by decide, by decide, by decide,
    updateCertificates_host_reference fileController [] renewal [oldTLS] [] newTLS
      "cert2" "key2" "a.example.com" (by decide) (by decide) (by decide)
      (fun later h => by cases h)⟩

/-- C11: when the only TLS declaration with a complete secret lists no host,
`updateCertificates` returns the map that binds the empty host, and no other key,
to the file reference the registration returned, and every server
`generateNginxCfg` then builds for a host rule with the empty host has TLS
enabled with that reference as certificate and as key. -/
theorem updateCertificates_wildcard {σ : Type} (ctl : NginxController σ) (nginx : σ)
    (ingEx : IngressEx) (pre post : List IngressTLS) (tls : IngressTLS) (cert key : String)
    (hsplit : ingEx.Ingress.Spec.TLS = pre ++ tls :: post)
    (hvalid : certAndKey ingEx tls = some (cert, key))
    (hhosts : tls.Hosts = [])
    (hpre : ∀ other ∈ pre, certAndKey ingEx other = none)
    (hpost : ∀ other ∈ post, certAndKey ingEx other = none) :
    (updateCertificates ctl nginx ingEx).pems =
      [(emptyHost, (ctl.AddOrUpdateCertAndKey nginx tls.SecretName cert key).1)] ∧
    (updateCertificates ctl nginx ingEx).pems.get? "" =
      some (ctl.AddOrUpdateCertAndKey nginx tls.SecretName cert key).1 ∧
    (∀ host, host ≠ "" → (updateCertificates ctl nginx ingEx).pems.get? host = none) ∧
    ∀ (config : Config) (ph : UpstreamServer) (i : Nat) (paths : List HTTPIngressPath),
      (rulesWithPaths ingEx.Ingress.Spec.Rules)[i]? = some ("", paths) →
      ∃ srv : Server,
        (generateNginxCfg config ph ingEx
          (updateCertificates ctl nginx ingEx).pems).Servers[i]? = some srv ∧
        srv.Name = "" ∧ srv.SSL = true ∧
        srv.SSLCertificate = (ctl.AddOrUpdateCertAndKey nginx tls.SecretName cert key).1 ∧
        srv.SSLCertificateKey = (ctl.AddOrUpdateCertAndKey nginx tls.SecretName cert key).1 := by
  have hpems : (updateCertificates ctl nginx ingEx).pems =
      [(emptyHost, (ctl.AddOrUpdateCertAndKey nginx tls.SecretName cert key).1)] := by
    rw [updateCertificates_eq_foldl, hsplit, List.foldl_append, List.foldl_cons,
      tlsLoop_skip_all ctl ingEx pre _ hpre, tlsLoop_skip_all ctl ingEx post _ hpost,
      tlsStep_register ctl ingEx _ tls cert key hvalid, hhosts]
    rfl
  refine ⟨hpems, ?_, ?_, ?_⟩
  · rw [hpems]; simp [GoMap.get?, emptyHost]
  · intro host hne
    rw [hpems]
    have : ¬ "" = host := fun e => hne e.symm
    simp [GoMap.get?, emptyHost, this]
  · intro config ph i paths hi
    have hget : (updateCertificates ctl nginx ingEx).pems.get? "" =
        some (ctl.AddOrUpdateCertAndKey nginx tls.SecretName cert key).1 := by
      rw [hpems]; simp [GoMap.get?, emptyHost]
    obtain ⟨hname, _, hcert, _⟩ := serverWithCert_tls "" (updateCertificates ctl nginx ingEx).pems
      (locationsFrom (rulesLoop config ph ingEx (updateCertificates ctl nginx ingEx).pems).upstreams
        ingEx (createConfig config ingEx) "" paths) _ rfl
    refine ⟨_, generateNginxCfg_server_at config ph ingEx _ i ("", paths) hi, ?_⟩
    have hssl := (serverWithCert_tls "" (updateCertificates ctl nginx ingEx).pems
      (locationsFrom (rulesLoop config ph ingEx (updateCertificates ctl nginx ingEx).pems).upstreams
        ingEx (createConfig config ingEx) "" paths) _ rfl).2.1
    exact ⟨hname, hssl.2 ⟨_, hget⟩, (hcert _ hget).1, (hcert _ hget).2⟩

/-- C11 at the snapshot `wildcard`. -/
theorem updateCertificates_wildcard_witness :
    wildcard.Ingress.Spec.TLS = [] ++ wildcardTLS :: [] ∧
    certAndKey wildcard wildcardTLS = some ("cert2", "key2") ∧
    wildcardTLS.Hosts = [] ∧
    (updateCertificates fileController [] wildcard).pems = [("", "new.pem")] ∧
    ((generateNginxCfg sampleConfig samplePlaceholder wildcard
      (updateCertificates fileController [] wildcard).pems).Servers.map
        (fun srv => (srv.Name, srv.SSL, srv.SSLCertificate, srv.SSLCertificateKey))) =
      [("", true, "new.pem", "new.pem")] :=
  ⟨by decide, by decide, by decide,
    (updateCertificates_wildcard fileController [] wildcard [] [] wildcardTLS "cert2" "key2"
      (by decide) (by decide) (by decide) (fun other h => by cases h)
      (fun other h => by cases h)).1,
    by decide⟩

/-- C12: a TLS declaration whose secret is absent from the snapshot, or lacks the
certificate or the key, leaves the map and the state of the collaborator as
they are, whatever the collaborator, so that no certificate is registered for
it; and `updateCertificates` returns what it returns for the snapshot without
that declaration.  The function is total: it returns no failure. -/
theorem updateCertificates_skips_incomplete {σ : Type} (ctl : NginxController σ) (nginx : σ)
    (ingEx : IngressEx) (pre post : List IngressTLS) (tls : IngressTLS)
    (hsplit : ingEx.Ingress.Spec.TLS = pre ++ tls :: post)
    (hbad : ingEx.Secrets.get? tls.SecretName = none ∨
      ∃ secret, ingEx.Secrets.get? tls.SecretName = some secret ∧
        (secret.Data.get? TLSCertKey = none ∨ secret.Data.get? TLSPrivateKeyKey = none)) :
    (∀ st : CertLoop σ, tlsStep ctl ingEx st tls = st) ∧
    updateCertificates ctl nginx ingEx =
      updateCertificates ctl nginx (withTLS ingEx (pre ++ post)) := by
  have hnone := certAndKey_eq_none_of_incomplete ingEx tls hbad
  refine ⟨fun st => tlsStep_skip ctl ingEx st tls hnone, ?_⟩
  rw [updateCertificates_withTLS, updateCertificates_eq_foldl, hsplit, List.foldl_append,
    List.foldl_append, List.foldl_cons, tlsStep_skip ctl ingEx _ tls hnone]

/-- C12 at the snapshot `incomplete`, whose first declaration names a secret
without key: the recording collaborator sees the registration of the second
declaration only. -/
theorem updateCertificates_skips_incomplete_witness :
    incomplete.Ingress.Spec.TLS = [] ++ brokenTLS :: [newTLS] ∧
    (∃ secret, incomplete.Secrets.get? brokenTLS.SecretName = some secret ∧
      (secret.Data.get? TLSCertKey = none ∨ secret.Data.get? TLSPrivateKeyKey = none)) ∧
    (updateCertificates recorder [] incomplete).pems = [("a.example.com", "new.pem")] ∧
    (updateCertificates recorder [] incomplete).nginx =
      [Call.addOrUpdateCertAndKey "new" "cert2" "key2"] ∧
    updateCertificates recorder [] incomplete =
      updateCertificates recorder [] (withTLS incomplete ([] ++ [newTLS])) :=
  ⟨by decide, ⟨_, rfl, Or.inr (by decide)⟩, by decide, by decide,
    (updateCertificates_skips_incomplete recorder [] incomplete [] [newTLS] brokenTLS
      (by decide) (Or.inr ⟨_, rfl, Or.inr (by decide)⟩)).2⟩

/-- C13: a server `generateNginxCfg` builds has TLS enabled exactly when the
certificate map has an entry for its host, and then its certificate and its key
are that entry; when the map has no entry for its host, TLS is disabled and both
references are empty, whatever the map holds for the empty host. -/
theorem generateNginxCfg_server_tls (config : Config) (ph : UpstreamServer)
    (ingEx : IngressEx) (pems : GoMap String) (srv : Server)
    (hsrv : srv ∈ (generateNginxCfg config ph ingEx pems).Servers) :
    (srv.SSL = true ↔ ∃ pemFile, pems.get? srv.Name = some pemFile) ∧
    (∀ pemFile, pems.get? srv.Name = some pemFile →
      srv.SSLCertificate = pemFile ∧ srv.SSLCertificateKey = pemFile) ∧
    (pems.get? srv.Name = none →
      srv.SSL = false ∧ srv.SSLCertificate = "" ∧ srv.SSLCertificateKey = "") := by
  obtain ⟨name, locations, h⟩ := generateNginxCfg_server_shape config ph ingEx pems srv hsrv
  obtain ⟨hname, h1, h2, h3⟩ := serverWithCert_tls name pems locations srv h
  rw [hname]
  exact ⟨h1, h2, h3⟩

/-- C13 at the snapshot `cafe` under a map with an entry for the empty host only:
the server `cafe.example.com` has TLS disabled. -/
theorem generateNginxCfg_server_tls_witness :
    cafeServer ∈ (generateNginxCfg sampleConfig samplePlaceholder cafe wildcardPems).Servers ∧
    cafeServer.Name = "cafe.example.com" ∧
    wildcardPems.get? "" = some "w.pem" ∧
    cafeServer.SSL = false ∧
    ((cafeServer.SSL = true ↔ ∃ pemFile, wildcardPems.get? cafeServer.Name = some pemFile) ∧
      (∀ pemFile, wildcardPems.get? cafeServer.Name = some pemFile →
        cafeServer.SSLCertificate = pemFile ∧ cafeServer.SSLCertificateKey = pemFile) ∧
      (wildcardPems.get? cafeServer.Name = none →
        cafeServer.SSL = false ∧ cafeServer.SSLCertificate = "" ∧
          cafeServer.SSLCertificateKey = "")) :=
  ⟨by decide, by decide, by decide, by decide,
    generateNginxCfg_server_tls sampleConfig samplePlaceholder cafe wildcardPems cafeServer
      (by decide)⟩

/-- C14: every Location of the configuration `generateNginxCfg` returns carries,
for each of the three settings, the raw value of its annotation when the
resource has that key and the value of the baseline otherwise; and a change of
the annotations that leaves the three recognized keys as they are leaves the
whole configuration as it is. -/
theorem generateNginxCfg_location_settings (config : Config) (ph : UpstreamServer)
    (ingEx : IngressEx) (pems : GoMap String) :
    (∀ srv ∈ (generateNginxCfg config ph ingEx pems).Servers, ∀ loc ∈ srv.Locations,
      loc.ProxyConnectTimeout =
        (ingEx.Ingress.Annotations.get? "nginx.org/proxy-connect-timeout").getD
          config.ProxyConnectTimeout ∧
      loc.ProxyReadTimeout =
        (ingEx.Ingress.Annotations.get? "nginx.org/proxy-read-timeout").getD
          config.ProxyReadTimeout ∧
      loc.ClientMaxBodySize =
        (ingEx.Ingress.Annotations.get? "nginx.org/client-max-body-size").getD
          config.ClientMaxBodySize) ∧
    (∀ annotations : GoMap String,
      annotations.get? "nginx.org/proxy-connect-timeout" =
        ingEx.Ingress.Annotations.get? "nginx.org/proxy-connect-timeout" →
      annotations.get? "nginx.org/proxy-read-timeout" =
        ingEx.Ingress.Annotations.get? "nginx.org/proxy-read-timeout" →
      annotations.get? "nginx.org/client-max-body-size" =
        ingEx.Ingress.Annotations.get? "nginx.org/client-max-body-size" →
      generateNginxCfg config ph (withAnnotations ingEx annotations) pems =
        generateNginxCfg config ph ingEx pems) := by
  refine ⟨?_, ?_⟩
  · intro srv hsrv loc hloc
    obtain ⟨h1, h2, h3⟩ := generateNginxCfg_location_cfg config ph ingEx pems srv loc hsrv hloc
    obtain ⟨c1, c2, c3, _, _⟩ := createConfig_fields config ingEx
    exact ⟨h1.trans c1, h2.trans c2, h3.trans c3⟩
  · intro annotations h1 h2 h3
    exact generateNginxCfg_withAnnotations config ph ingEx pems annotations
      (createConfig_withAnnotations config ingEx annotations h1 h2 h3)

/-- C15: with the baseline in the variable `cnf.config` points to, `createConfig`
returns the overlay and leaves that variable, and every other variable there
was, with the value it had, whatever the annotations of the resource: the
assignments go to the copy `ingCfg`.  `generateNginxCfg` and
`AddOrUpdateIngress` return with the pointer and the baseline behind it
unchanged, and they compute what their value-passing translations compute.  The
overlay agrees with the baseline on the two hash sizes, which no annotation
changes. -/
theorem baseline_unchanged {σ : Type} (ctl : NginxController σ) (ph : UpstreamServer)
    (heap : ConfigHeap) (cnf : ConfiguratorRef σ) (baseline : Config) (name : String)
    (ingEx : IngressEx) (pems : GoMap String)
    (hbase : heap.read cnf.config = some baseline) :
    (∃ heap', createConfigRef heap cnf.config ingEx =
        some (createConfig baseline ingEx, heap') ∧
      heap'.read cnf.config = some baseline ∧
      ∀ p c, heap.read p = some c → heap'.read p = some c) ∧
    (∃ heap', generateNginxCfgRef heap cnf.config ph ingEx pems =
        some (generateNginxCfg baseline ph ingEx pems, heap') ∧
      heap'.read cnf.config = some baseline) ∧
    (∃ cnf' heap', AddOrUpdateIngressRef ctl ph heap cnf name ingEx = some (cnf', heap') ∧
      cnf'.config = cnf.config ∧
      heap'.read cnf'.config = some baseline ∧
      cnf'.nginx =
        (AddOrUpdateIngress ctl ph { nginx := cnf.nginx, config := baseline } name ingEx).nginx) ∧
    (createConfig baseline ingEx).MainServerNamesHashBucketSize =
      baseline.MainServerNamesHashBucketSize ∧
    (createConfig baseline ingEx).MainServerNamesHashMaxSize =
      baseline.MainServerNamesHashMaxSize := by
  have hc := createConfigRef_eq heap cnf.config ingEx baseline hbase
  have hkeep : ∀ p c, heap.read p = some c →
      ConfigHeap.read (heap ++ [createConfig baseline ingEx]) p = some c :=
    fun p c h => ConfigHeap.read_append_of_read heap c _ p h
  obtain ⟨_, _, _, c4, c5⟩ := createConfig_fields baseline ingEx
  refine ⟨⟨_, hc, hkeep _ _ hbase, hkeep⟩, ⟨heap ++ [createConfig baseline ingEx], ?_,
    hkeep _ _ hbase⟩,
    ⟨{ nginx := (AddOrUpdateIngress ctl ph { nginx := cnf.nginx, config := baseline } name
          ingEx).nginx
       config := cnf.config },
      heap ++ [createConfig baseline ingEx], ?_, rfl, hkeep _ _ hbase, rfl⟩,
    c4, c5⟩
  · simp only [generateNginxCfgRef, hc, generateNginxCfg_eq_from]
  · simp only [AddOrUpdateIngressRef, generateNginxCfgRef, hc, generateNginxCfg_eq_from]
    rfl

/-- C15 at the snapshot `tuned`, whose annotation sets the connect timeout: the
overlay carries `5s` in a new variable and the baseline keeps `60s`. -/
theorem baseline_unchanged_witness :
    ConfigHeap.read [sampleConfig] 0 = some sampleConfig ∧
    createConfigRef [sampleConfig] 0 tuned =
      some ({ sampleConfig with ProxyConnectTimeout := "5s" },
        [sampleConfig, { sampleConfig with ProxyConnectTimeout := "5s" }]) ∧
    ((∃ heap', createConfigRef [sampleConfig] 0 tuned =
          some (createConfig sampleConfig tuned, heap') ∧
        heap'.read 0 = some sampleConfig ∧
        ∀ p c, ConfigHeap.read [sampleConfig] p = some c → heap'.read p = some c) ∧
      (∃ heap', generateNginxCfgRef [sampleConfig] 0 samplePlaceholder tuned [] =
          some (generateNginxCfg sampleConfig samplePlaceholder tuned [], heap') ∧
        heap'.read 0 = some sampleConfig) ∧
      (∃ cnf' heap',
        AddOrUpdateIngressRef recorder samplePlaceholder [sampleConfig]
          { nginx := [], config := 0 } "tuned" tuned = some (cnf', heap') ∧
        cnf'.config = 0 ∧
        heap'.read cnf'.config = some sampleConfig ∧
        cnf'.nginx =
          (AddOrUpdateIngress recorder samplePlaceholder
            { nginx := [], config := sampleConfig } "tuned" tuned).nginx) ∧
      (createConfig sampleConfig tuned).MainServerNamesHashBucketSize =
        sampleConfig.MainServerNamesHashBucketSize ∧
      (createConfig sampleConfig tuned).MainServerNamesHashMaxSize =
        sampleConfig.MainServerNamesHashMaxSize) :=
  ⟨by decide, by decide,
    baseline_unchanged recorder samplePlaceholder [sampleConfig] { nginx := [], config := 0 }
      sampleConfig "tuned" tuned [] (by decide)⟩

/-- C16, at the endpoints `twoSubsets` and the requested port 4294967376: no
subset exposes a port equal to the requested one, and
`endpointsToUpstreamServers` returns a server for each address of the subset
that exposes port 80, to which `int32` wraps the requested port. -/
theorem wrapped_port_selects_subset :
    (∀ subset ∈ twoSubsets.Subsets, ∀ port ∈ subset.Ports, port.Port ≠ 4294967376) ∧
    endpointsToUpstreamServers twoSubsets 4294967376 =
      [{ Address := "10.0.0.1", Port := "4294967376" },
       { Address := "10.0.0.2", Port := "4294967376" }] := by
  decide

/-- C17: `UpdateConfig` makes the given configuration the baseline and calls the
collaborator once, with the main configuration that carries the two hash sizes
of the given configuration; the recording collaborator sees that call and no
other.  An `AddOrUpdateIngress` that follows, for a resource without recognized
annotations, applies the configuration generated from the new baseline, whose
Locations all carry the timeouts and the body size of the new baseline. -/
theorem UpdateConfig_replaces_baseline {σ : Type} (ctl : NginxController σ)
    (ph : UpstreamServer) (cnf : Configurator σ) (c : Config) :
    (UpdateConfig ctl cnf c).config = c ∧
    (UpdateConfig ctl cnf c).nginx =
      ctl.UpdateMainConfigFile cnf.nginx
        { ServerNamesHashBucketSize := c.MainServerNamesHashBucketSize
          ServerNamesHashMaxSize := c.MainServerNamesHashMaxSize } ∧
    (∀ (log : List Call) (old : Config),
      (UpdateConfig recorder { nginx := log, config := old } c).nginx =
        log ++ [Call.updateMainConfigFile
          { ServerNamesHashBucketSize := c.MainServerNamesHashBucketSize
            ServerNamesHashMaxSize := c.MainServerNamesHashMaxSize }]) ∧
    (∀ (name : String) (ingEx : IngressEx),
      ingEx.Ingress.Annotations.get? "nginx.org/proxy-connect-timeout" = none →
      ingEx.Ingress.Annotations.get? "nginx.org/proxy-read-timeout" = none →
      ingEx.Ingress.Annotations.get? "nginx.org/client-max-body-size" = none →
      (AddOrUpdateIngress ctl ph (UpdateConfig ctl cnf c) name ingEx).nginx =
        ctl.Reload (ctl.AddOrUpdateIngress
          (updateCertificates ctl (UpdateConfig ctl cnf c).nginx ingEx).nginx name
          (generateNginxCfg c ph ingEx
            (updateCertificates ctl (UpdateConfig ctl cnf c).nginx ingEx).pems)) ∧
      ∀ srv ∈ (generateNginxCfg c ph ingEx
          (updateCertificates ctl (UpdateConfig ctl cnf c).nginx ingEx).pems).Servers,
        ∀ loc ∈ srv.Locations,
          loc.ProxyConnectTimeout = c.ProxyConnectTimeout ∧
          loc.ProxyReadTimeout = c.ProxyReadTimeout ∧
          loc.ClientMaxBodySize = c.ClientMaxBodySize) := by
  refine ⟨rfl, rfl, fun _ _ => rfl, ?_⟩
  intro name ingEx h1 h2 h3
  refine ⟨rfl, ?_⟩
  intro srv hsrv loc hloc
  obtain ⟨l1, l2, l3⟩ := generateNginxCfg_location_cfg c ph ingEx _ srv loc hsrv hloc
  obtain ⟨c1, c2, c3, _, _⟩ := createConfig_fields c ingEx
  rw [h1] at c1; rw [h2] at c2; rw [h3] at c3
  exact ⟨l1.trans c1, l2.trans c2, l3.trans c3⟩

/-- C19, as stated, fails on the snapshot `collide`: the paths `/a` and `/b` of the
host `shop` name the service `api-web` with the ports 8080 and 9090, the group
built from the first of them would hold `10.0.0.2:8080`, and both Locations are
bound to the group built earlier for `(shop-api, web)`, which derives the same
name and holds `10.0.0.1:80`. -/
theorem collide_first_reference_ignored :
    (rulesWithPaths collide.Ingress.Spec.Rules)[1]? = some ("shop", [apiPathA, apiPathB]) ∧
    apiPathA.Backend.ServiceName = apiPathB.Backend.ServiceName ∧
    apiPathA.Backend.ServicePort ≠ apiPathB.Backend.ServicePort ∧
    (createUpstream samplePlaceholder collide
        (getNameForUpstream collide.Ingress "shop" "api-web") apiPathA.Backend).UpstreamServers =
      [{ Address := "10.0.0.2", Port := "8080" }] ∧
    (generateNginxCfg sampleConfig samplePlaceholder collide []).Servers.map
        (fun srv => (srv.Name,
          srv.Locations.map (fun loc => (loc.Path, loc.Upstream.UpstreamServers)))) =
      [("shop-api", [("/", [{ Address := "10.0.0.1", Port := "80" }])]),
       ("shop", [("/a", [{ Address := "10.0.0.1", Port := "80" }]),
                 ("/b", [{ Address := "10.0.0.1", Port := "80" }])])] ∧
    ¬ (∀ srv ∈ (generateNginxCfg sampleConfig samplePlaceholder collide []).Servers,
        srv.Name = "shop" → ∀ loc ∈ srv.Locations,
          loc.Upstream = createUpstream samplePlaceholder collide
            (getNameForUpstream collide.Ingress "shop" "api-web") apiPathA.Backend) := by
  decide

/-- C19, amended: let a path `later` of a rule name the host and the service of a
reference met before it, which is the default backend when the host is empty, or
a path of the same rule or of an earlier rule with that host; the target ports
may differ.  Then every Location of a path that derives the group name of
`later`, the Location of `later` among them, is bound to one and the same group,
built from the backend `b₀` of the first reference that derives that name;
provided that no reference met before `later` with another host or service
derives the same name, `b₀` is the backend of the first reference with the host
and the service of `later`; it is the default backend when the default backend
derives the name.  Whatever target port replaces the one of `later`,
`generateNginxCfg` returns the same configuration. -/
theorem generateNginxCfg_first_reference_wins (config : Config) (ph : UpstreamServer)
    (ingEx : IngressEx) (pems : GoMap String) (rpre rpost : List IngressRule) (host : String)
    (ppre ppost : List HTTPIngressPath) (later : HTTPIngressPath) (first : IngressBackend)
    (hrules : ingEx.Ingress.Spec.Rules = rpre ++ ruleOf host (ppre ++ later :: ppost) :: rpost)
    (hfirst : (host, first) ∈
      references ingEx.Ingress.Spec.Backend (rpre ++ [ruleOf host ppre]))
    (hsvc : first.ServiceName = later.Backend.ServiceName) :
    ∃ b₀ : IngressBackend,
      firstReference ingEx.Ingress
        (references ingEx.Ingress.Spec.Backend (rpre ++ [ruleOf host ppre]))
        (getNameForUpstream ingEx.Ingress host later.Backend.ServiceName) = some b₀ ∧
      ((∀ r ∈ references ingEx.Ingress.Spec.Backend (rpre ++ [ruleOf host ppre]),
          getNameForUpstream ingEx.Ingress r.1 r.2.ServiceName =
            getNameForUpstream ingEx.Ingress host later.Backend.ServiceName →
          r.1 = host ∧ r.2.ServiceName = later.Backend.ServiceName) →
        ((references ingEx.Ingress.Spec.Backend (rpre ++ [ruleOf host ppre])).find?
          (fun r => decide (r.1 = host ∧ r.2.ServiceName = later.Backend.ServiceName))).map
            (fun r => r.2) = some b₀) ∧
      (∀ backend, ingEx.Ingress.Spec.Backend = some backend →
        getNameForUpstream ingEx.Ingress emptyHost backend.ServiceName =
          getNameForUpstream ingEx.Ingress host later.Backend.ServiceName →
        b₀ = backend) ∧
      (∀ (i j : Nat) (h : String) (paths : List HTTPIngressPath) (path : HTTPIngressPath),
        (rulesWithPaths ingEx.Ingress.Spec.Rules)[i]? = some (h, paths) →
        paths[j]? = some path →
        getNameForUpstream ingEx.Ingress h path.Backend.ServiceName =
          getNameForUpstream ingEx.Ingress host later.Backend.ServiceName →
        ∃ srv loc, (generateNginxCfg config ph ingEx pems).Servers[i]? = some srv ∧
          srv.Locations[j]? = some loc ∧
          loc.Path = (if path.Path = "" then "/" else path.Path) ∧
          loc.Upstream = createUpstream ph ingEx
            (getNameForUpstream ingEx.Ingress host later.Backend.ServiceName) b₀) ∧
      (∃ srv loc,
        (generateNginxCfg config ph ingEx pems).Servers[(rulesWithPaths rpre).length]? =
          some srv ∧
        srv.Locations[ppre.length]? = some loc ∧
        loc.Path = (if later.Path = "" then "/" else later.Path) ∧
        loc.Upstream = createUpstream ph ingEx
          (getNameForUpstream ingEx.Ingress host later.Backend.ServiceName) b₀) ∧
      (∀ port : IntOrString,
        generateNginxCfg config ph
            (withRules ingEx
              (rpre ++ ruleOf host (ppre ++ withPort later port :: ppost) :: rpost)) pems =
          generateNginxCfg config ph ingEx pems) := by
  obtain ⟨b₀, hb₀⟩ := firstReference_of_mem ingEx _ host first hfirst
  rw [hsvc] at hb₀
  have hall : firstReference ingEx.Ingress
      (references ingEx.Ingress.Spec.Backend ingEx.Ingress.Spec.Rules)
      (getNameForUpstream ingEx.Ingress host later.Backend.ServiceName) = some b₀ := by
    rw [hrules, references_split, firstReference_append, hb₀]
    rfl
  have hat : ∀ (i j : Nat) (h : String) (paths : List HTTPIngressPath)
      (path : HTTPIngressPath),
      (rulesWithPaths ingEx.Ingress.Spec.Rules)[i]? = some (h, paths) →
      paths[j]? = some path →
      getNameForUpstream ingEx.Ingress h path.Backend.ServiceName =
        getNameForUpstream ingEx.Ingress host later.Backend.ServiceName →
      ∃ srv loc, (generateNginxCfg config ph ingEx pems).Servers[i]? = some srv ∧
        srv.Locations[j]? = some loc ∧
        loc.Path = (if path.Path = "" then "/" else path.Path) ∧
        loc.Upstream = createUpstream ph ingEx
          (getNameForUpstream ingEx.Ingress host later.Backend.ServiceName) b₀ := by
    intro i j h paths path hi hj hname
    have := generateNginxCfg_location_at config ph ingEx pems i j h paths path b₀ hi hj
      (by rw [hname]; exact hall)
    rw [hname] at this
    exact this
  refine ⟨b₀, hb₀, ?_, ?_, hat, ?_, ?_⟩
  · intro hsame
    have hcongr := find?_congr_mem
      (references ingEx.Ingress.Spec.Backend (rpre ++ [ruleOf host ppre]))
      (fun r => decide (r.1 = host ∧ r.2.ServiceName = later.Backend.ServiceName))
      (fun r => decide (getNameForUpstream ingEx.Ingress r.1 r.2.ServiceName =
        getNameForUpstream ingEx.Ingress host later.Backend.ServiceName))
      (by
        intro r hr
        by_cases hn : getNameForUpstream ingEx.Ingress r.1 r.2.ServiceName =
            getNameForUpstream ingEx.Ingress host later.Backend.ServiceName
        · have := hsame r hr hn
          simp [hn, this.1, this.2]
        · have : ¬ (r.1 = host ∧ r.2.ServiceName = later.Backend.ServiceName) := by
            rintro ⟨h1, h2⟩
            exact hn (by rw [h1, h2])
          simp [hn, this])
    rw [hcongr]
    exact hb₀
  · intro backend hbk hname
    have hpre : references ingEx.Ingress.Spec.Backend (rpre ++ [ruleOf host ppre]) =
        (emptyHost, backend) :: (rulesWithPaths (rpre ++ [ruleOf host ppre])).flatMap
          (fun r => r.2.map (fun path => (r.1, path.Backend))) := by
      simp [references, hbk]
    rw [hpre] at hb₀
    simp only [firstReference, List.find?_cons, hname, decide_True, Option.map_some',
      Option.some.injEq] at hb₀
    exact hb₀.symm
  · have hi : (rulesWithPaths ingEx.Ingress.Spec.Rules)[(rulesWithPaths rpre).length]? =
        some (host, ppre ++ later :: ppost) := by
      rw [hrules, rulesWithPaths_append, rulesWithPaths_ruleOf]
      exact getElem?_append_cons_length _ _ _
    have hj : (ppre ++ later :: ppost)[ppre.length]? = some later :=
      getElem?_append_cons_length _ _ _
    exact hat _ _ host _ later hi hj rfl
  · intro port
    exact generateNginxCfg_withPort config ph ingEx pems rpre rpost host ppre ppost later port
      b₀ hrules hb₀

/-- C19, amended, at the snapshot `ports`: the paths `/a` to `web:80` and `/b` to
`web:443` are bound to the servers behind port 80, the group of `/b` is built
from the backend of `/a`, and `web:8080` in place of `web:443` gives the same
configuration. -/
theorem generateNginxCfg_first_reference_wins_witness :
    ports.Ingress.Spec.Rules = [] ++ ruleOf "p.example.com" ([firstPath] ++ laterPath :: []) :: [] ∧
    ("p.example.com", webBackend) ∈
      references ports.Ingress.Spec.Backend ([] ++ [ruleOf "p.example.com" [firstPath]]) ∧
    webBackend.ServiceName = laterPath.Backend.ServiceName ∧
    webBackend.ServicePort ≠ laterPath.Backend.ServicePort ∧
    (generateNginxCfg sampleConfig samplePlaceholder ports []).Servers.map
        (fun srv => srv.Locations.map (fun loc => (loc.Path, loc.Upstream.UpstreamServers))) =
      [[("/a", [{ Address := "10.0.0.1", Port := "80" }, { Address := "10.0.0.2", Port := "80" }]),
        ("/b", [{ Address := "10.0.0.1", Port := "80" }, { Address := "10.0.0.2", Port := "80" }])]] ∧
    (∃ b₀ : IngressBackend, b₀ = webBackend ∧
      ∃ srv loc,
        (generateNginxCfg sampleConfig samplePlaceholder ports []).Servers[
          (rulesWithPaths []).length]? = some srv ∧
        srv.Locations[[firstPath].length]? = some loc ∧
        loc.Path = (if laterPath.Path = "" then "/" else laterPath.Path) ∧
        loc.Upstream = createUpstream samplePlaceholder ports
          (getNameForUpstream ports.Ingress "p.example.com" laterPath.Backend.ServiceName) b₀) ∧
    generateNginxCfg sampleConfig samplePlaceholder
        (withRules ports
          ([] ++ ruleOf "p.example.com"
            ([firstPath] ++ withPort laterPath (.int 8080) :: []) :: [])) [] =
      generateNginxCfg sampleConfig samplePlaceholder ports [] :=
  ⟨by decide, by decide, by decide, by decide, by decide,
    (generateNginxCfg_first_reference_wins sampleConfig samplePlaceholder ports [] [] []
      "p.example.com" [firstPath] [] laterPath webBackend (by decide) (by decide)
      (by decide)).elim
      (fun b₀ h => ⟨b₀,
        Option.some.inj (h.1.symm.trans
          (by decide : firstReference ports.Ingress
            (references ports.Ingress.Spec.Backend ([] ++ [ruleOf "p.example.com" [firstPath]]))
            (getNameForUpstream ports.Ingress "p.example.com" laterPath.Backend.ServiceName) =
              some webBackend)),
        h.2.2.2.2.1⟩),
    (generateNginxCfg_first_reference_wins sampleConfig samplePlaceholder ports [] [] []
      "p.example.com" [firstPath] [] laterPath webBackend (by decide) (by decide)
      (by decide)).elim (fun _ h => h.2.2.2.2.2 (.int 8080))⟩

/-- C20, at the requested port 4294967376, which the port string `4294967376`
yields: `int32` wraps it to 80, the subset exposes port 80 only, and the server
`endpointsToUpstreamServers` and `createUpstream` emit for it carries the port
`4294967376`, which no subset exposes. -/
theorem wrapped_port_rendered :
    (IntOrString.str "4294967376").IntValue = 4294967376 ∧
    toInt32 4294967376 = 80 ∧
    endpointsToUpstreamServers (singleEndpoint "10.0.0.1") 4294967376 =
      [{ Address := "10.0.0.1", Port := "4294967376" }] ∧
    (createUpstream samplePlaceholder bare "default-bare--web"
        { ServiceName := "web", ServicePort := .str "4294967376" }).UpstreamServers =
      [{ Address := "10.0.0.1", Port := "4294967376" }] ∧
    (∀ subset ∈ (singleEndpoint "10.0.0.1").Subsets, ∀ port ∈ subset.Ports,
      port.Port = 80) := by
  decide

end Nginx
